import Mathlib

/-!
# The action invoker of revel (`invoker.go`)

A shallow embedding of `actionInvoker.Call` together with the fragment of Go's
`reflect` package that it drives, followed by the properties of the invoker.

`Call` is stateful Go code that may panic at several places.  It is embedded as a
total function from the controller to an `Outcome`: the controller as `Call` leaves
it, the trace of what `Call` did (binder consultations, reflective calls, runs of the
method body, writes of `c.Result`) and the panic that ended it, if any.
-/

namespace Revel

/-! ## Go types and reflected values -/

/-- Go types, as far as `reflect.Type` distinguishes them for the invoker.  A type is
identified by its structure and name, so equality here is the identity that `==` on
`reflect.Type` tests. -/
inductive GoType
  | bool
  | int
  | string
  | ptr (elem : String)
  | slice (elem : GoType)
  | iface (name : String)
  | struct (name : String)
deriving DecidableEq, Repr

/-- The Go declaration `websocketType = reflect.TypeOf((*websocket.Conn)(nil))`. -/
def websocketType : GoType := GoType.ptr "websocket.Conn"

/-- The interface type `Result` of the package: the type of the slot `c.Result`.  Its
declaration is not in `invoker.go`; which types satisfy it is given by the
`implements` relation that the definitions below take as a parameter. -/
def resultType : GoType := GoType.iface "revel.Result"

/-- Whether a type is an interface type. -/
def GoType.isInterface : GoType → Bool
  | GoType.iface _ => true
  | _ => false

/-- Whether a type is a slice type. -/
def GoType.isSlice : GoType → Bool
  | GoType.slice _ => true
  | _ => false

/-- The kinds of `reflect.Kind` that the modelled types have. -/
inductive Kind
  | Invalid
  | Bool
  | Int
  | String
  | Ptr
  | Slice
  | Interface
  | Struct
deriving DecidableEq, Repr

/-- A `reflect.Value`.  `zero` is the zero Value (kind `Invalid`).  `iface name dyn` is
a Value whose static type is the interface type `name`, holding the dynamic value
`dyn` or nil: this is what `reflect` hands back for a function result declared with
an interface type.  Every other constructor is a value of a concrete type; a pointer
is nil or an address, and a slice is identified with the list of its elements (the
nil slice being the one without elements). -/
inductive Value
  | zero
  | bool (b : Bool)
  | int (n : Int)
  | string (s : String)
  | ptr (elem : String) (addr : Option Nat)
  | struct (name : String) (fields : List Value)
  | slice (elem : GoType) (xs : List Value)
  | iface (name : String) (dyn : Option Value)

/-- The method `Value.Kind`. -/
def Value.Kind : Value → Kind
  | Value.zero => Kind.Invalid
  | Value.bool _ => Kind.Bool
  | Value.int _ => Kind.Int
  | Value.string _ => Kind.String
  | Value.ptr _ _ => Kind.Ptr
  | Value.struct _ _ => Kind.Struct
  | Value.slice _ _ => Kind.Slice
  | Value.iface _ _ => Kind.Interface

/-- The panics that can end `Call`. -/
inductive Panic
  | raised (msg : String)
  | valueError (method : String)
  | callSliceNonVariadic
  | tooFewArguments
  | tooManyArguments
  | zeroValueArgument
  | notAssignable (index : Nat)
  | cannotUseInCall (index : Nat)
  | indexOutOfRange
  | typeAssertion
deriving DecidableEq, Repr

/-- The method `Value.Type`: the static type of the Value; it panics on the zero
Value. -/
def Value.Typ : Value → Except Panic GoType
  | Value.zero => Except.error (Panic.valueError "reflect.Value.Type")
  | Value.bool _ => Except.ok GoType.bool
  | Value.int _ => Except.ok GoType.int
  | Value.string _ => Except.ok GoType.string
  | Value.ptr e _ => Except.ok (GoType.ptr e)
  | Value.struct n _ => Except.ok (GoType.struct n)
  | Value.slice e _ => Except.ok (GoType.slice e)
  | Value.iface name _ => Except.ok (GoType.iface name)

/-- The method `Value.IsNil`: defined for the nilable kinds, a panic for the others.
A slice of the model is the list of its elements, which does not tell the nil slice
from the empty one; the answer for a slice is that of the nil slice.  `Call` applies
`IsNil` to a Value of kind `Interface` only. -/
def Value.IsNil : Value → Except Panic Bool
  | Value.ptr _ addr => Except.ok addr.isNone
  | Value.slice _ xs => Except.ok xs.isEmpty
  | Value.iface _ dyn => Except.ok dyn.isNone
  | _ => Except.error (Panic.valueError "reflect.Value.IsNil")

/-- The method `Value.Interface`: the value as an `interface{}`, `none` standing for
the nil interface.  For a Value of kind `Interface` it is the element inside the
interface, for a concrete Value the value itself; it panics on the zero Value. -/
def Value.Interface : Value → Except Panic (Option Value)
  | Value.zero => Except.error (Panic.valueError "reflect.Value.Interface")
  | Value.iface _ dyn => Except.ok dyn
  | v => Except.ok (some v)

/-- The function `reflect.ValueOf` applied to a `*websocket.Conn`: a Value of type
`*websocket.Conn`, nil when the request carries no connection. -/
def ValueOfWebsocket (ws : Option Nat) : Value := Value.ptr "websocket.Conn" ws

/-- The method `Type.AssignableTo`: identical types, or an interface target that the
source type implements.  The third rule of `reflect`, identical underlying types with
one side not a defined type, never applies between two distinct types of `GoType`:
its `bool`, `int`, `string`, `iface` and `struct` types are defined types, and its
pointer and slice types are type literals, whose underlying type is the literal
itself. -/
def AssignableTo (implements : GoType → GoType → Bool) (xt targ : GoType) : Bool :=
  decide (xt = targ) || (targ.isInterface && implements xt targ)

/-! ## The handler context -/

/-- One entry of `MethodType.Args`: a declared parameter. -/
structure MethodArg where
  Name : String
  Typ : GoType
deriving DecidableEq, Repr

/-- The method descriptor `c.MethodType`. -/
structure MethodType where
  Name : String
  Args : List MethodArg
deriving DecidableEq, Repr

/-- The request `c.Request`: its field `Websocket` is nil or a connection. -/
structure Request where
  Websocket : Option Nat
deriving DecidableEq, Repr

/-- The binder `c.Params`.  `Bind` is declared outside `invoker.go`; it is taken as
given: it returns a Value or panics. -/
structure Params where
  Bind : String → GoType → Except Panic Value

/-- The type of a method: the types of its fixed parameters and, for a variadic
method, the element type `T` of its final parameter `...T` (whose type is `[]T`). -/
structure FuncType where
  fixed : List GoType
  variadic : Option GoType
deriving DecidableEq, Repr

/-- The parameter types `In(0)`, ..., `In(NumIn()-1)`. -/
def FuncType.ins (t : FuncType) : List GoType :=
  match t.variadic with
  | some e => t.fixed ++ [GoType.slice e]
  | none => t.fixed

/-- The method `Type.NumIn`. -/
def FuncType.NumIn (t : FuncType) : Nat := t.ins.length

/-- The method `Type.IsVariadic`. -/
def FuncType.IsVariadic (t : FuncType) : Bool := t.variadic.isSome

/-- A method of the handler instance.  `body` is the user's code: from the arguments
of the call, a variadic tail given element by element, to the results as `reflect`
returns them (one Value per declared result, of the declared type), or a panic.  What
the user's code does to the controller on its own account is not an effect of `Call`
and is not modelled. -/
structure Method where
  typ : FuncType
  body : List Value → Except Panic (List Value)

/-- The dynamic value of `c.AppController`: the exported methods of its type. -/
structure Instance where
  methods : List (String × Method)

/-- The controller `*Controller`, restricted to the fields `Call` touches.
`AppController` is an `interface{}` and may be nil; `c`, `c.MethodType`, `c.Request`
and `c.Params` are taken to be valid pointers. -/
structure Controller where
  AppController : Option Instance
  MethodType : MethodType
  Request : Request
  Params : Params
  Result : Option Value

/-! ## The fragment of `reflect` used by `Call` -/

/-- The expression `reflect.ValueOf(app).MethodByName(name)`: a panic on the zero
Value (nil `app`), the zero Value (`none`) when the type has no such method, the
method otherwise. -/
def MethodByName (app : Option Instance) (name : String) : Except Panic (Option Method) :=
  match app with
  | none => Except.error (Panic.valueError "reflect.Value.MethodByName")
  | some inst => Except.ok (inst.methods.lookup name)

/-- The first index `i < n` at which the argument is not assignable to the parameter
type (`reflect: Call using X as type Y`). -/
def firstNotAssignable (implements : GoType → GoType → Bool) :
    Nat → List Value → List GoType → Option Nat
  | _, [], _ => none
  | _, _, [] => none
  | i, x :: xs, t :: ts =>
    match x.Typ with
    | Except.error _ => some i
    | Except.ok xt =>
      if AssignableTo implements xt t then firstNotAssignable implements (i + 1) xs ts
      else some i

/-- The elements that a slice Value spreads into. -/
def spread : Value → List Value
  | Value.slice _ xs => xs
  | _ => []

/-- What a reflective call did: the arguments the method body was entered with, if it
was entered, and the results or the panic. -/
structure CallResult where
  entered : Option (List Value)
  results : Except Panic (List Value)

/-- A reflective call that panics before the method body is entered. -/
def CallResult.fail (p : Panic) : CallResult := ⟨none, Except.error p⟩

/-- The unexported `Value.call(op, in)` behind `Value.Call` (`isSlice = false`) and
`Value.CallSlice` (`isSlice = true`) on a method Value: the checks on the argument
list in the order `reflect` makes them, then the body.  `CallSlice` hands the final
argument to the variadic parameter as it is, so the body sees its elements as the
variadic arguments; `Call` on a variadic method gathers the trailing arguments. -/
def reflectCall (implements : GoType → GoType → Bool) (isSlice : Bool) (m : Method)
    (args : List Value) : CallResult :=
  let t := m.typ
  let n := if isSlice then t.NumIn else if t.IsVariadic then t.NumIn - 1 else t.NumIn
  if isSlice && !t.IsVariadic then CallResult.fail Panic.callSliceNonVariadic
  else if args.length < n then CallResult.fail Panic.tooFewArguments
  else if (isSlice || !t.IsVariadic) && n < args.length then
    CallResult.fail Panic.tooManyArguments
  else if args.any (fun x => decide (x.Kind = Kind.Invalid)) then
    CallResult.fail Panic.zeroValueArgument
  else
    match firstNotAssignable implements 0 (args.take n) t.ins with
    | some i => CallResult.fail (Panic.notAssignable i)
    | none =>
      if isSlice then
        let actual := args.take (n - 1) ++ spread (args.getD (n - 1) Value.zero)
        ⟨some actual, m.body actual⟩
      else
        match t.variadic with
        | some e =>
          match firstNotAssignable implements n (args.drop n)
              (List.replicate (args.length - n) e) with
          | some i => CallResult.fail (Panic.cannotUseInCall i)
          | none => ⟨some args, m.body args⟩
        | none => ⟨some args, m.body args⟩

/-! ## `actionInvoker.Call` -/

/-- The state of the loop over `c.MethodType.Args`: the slice `methodArgs`, the
consultations of the binder made so far, and the panic that stopped the loop. -/
structure Collected where
  methodArgs : List Value
  asked : List (String × GoType)
  panic : Option Panic

/-- The value `boundArg` that the body of the loop computes for one declared
parameter: the request's connection for a parameter whose type is `websocketType`,
what `c.Params.Bind` returns for any other. -/
def boundArg (c : Controller) (arg : MethodArg) : Except Panic Value :=
  if arg.Typ = websocketType then Except.ok (ValueOfWebsocket c.Request.Websocket)
  else c.Params.Bind arg.Name arg.Typ

/-- The loop `for _, arg := range c.MethodType.Args` with its accumulator. -/
def collectArgs (c : Controller) : List MethodArg → Collected → Collected
  | [], st => st
  | arg :: rest, st =>
    if arg.Typ = websocketType then
      collectArgs c rest
        ⟨st.methodArgs ++ [ValueOfWebsocket c.Request.Websocket], st.asked, none⟩
    else
      match c.Params.Bind arg.Name arg.Typ with
      | Except.error p => ⟨st.methodArgs, st.asked ++ [(arg.Name, arg.Typ)], some p⟩
      | Except.ok bound =>
        collectArgs c rest
          ⟨st.methodArgs ++ [bound], st.asked ++ [(arg.Name, arg.Typ)], none⟩

/-- One use of `Call` or `CallSlice` on `methodValue`. -/
structure Invocation where
  isSlice : Bool
  args : List Value
deriving Inhabited

/-- What one execution of `actionInvoker.Call` did.
* `c`: the controller when `Call` returns or panics;
* `asked`: the `(name, type)` pairs `c.Params.Bind` was called with, in order;
* `methodArgs`: the slice `methodArgs` as far as it was built;
* `invocations`: the uses of `Call`/`CallSlice` on the resolved method;
* `runs`: the argument lists with which the method body was entered;
* `returned`: the result lists that the reflective calls handed back;
* `writes`: the values assigned to `c.Result`, in order;
* `panic`: the panic that ended `Call`, `none` for a normal return. -/
structure Outcome where
  c : Controller
  asked : List (String × GoType)
  methodArgs : List Value
  invocations : List Invocation
  runs : List (List Value)
  returned : List (List Value)
  writes : List Value
  panic : Option Panic

/-- The tail of `Call` from the declaration of `resultValue`: index 0 of the results,
then the guarded assignment `c.Result = resultValue.Interface().(Result)`.  The
assertion `.(Result)` succeeds when the interface value is not nil and the type of its
dynamic value implements `Result`, and panics otherwise. -/
def captureResult (implements : GoType → GoType → Bool) (c : Controller)
    (results : List Value) : Controller × List Value × Option Panic :=
  match results with
  | [] => (c, [], some Panic.indexOutOfRange)
  | resultValue :: _ =>
    if resultValue.Kind = Kind.Interface then
      match resultValue.IsNil with
      | Except.error p => (c, [], some p)
      | Except.ok true => (c, [], none)
      | Except.ok false =>
        match resultValue.Interface with
        | Except.error p => (c, [], some p)
        | Except.ok none => (c, [], some Panic.typeAssertion)
        | Except.ok (some v) =>
          match v.Typ with
          | Except.error _ => (c, [], some Panic.typeAssertion)
          | Except.ok vt =>
            if implements vt resultType then
              ({ c with Result := some v }, [v], none)
            else (c, [], some Panic.typeAssertion)
    else (c, [], none)

/-- The method `func (f actionInvoker) Call(c *Controller, _ FilterChain)`.  The type
`FilterChain` is declared elsewhere in the package; `Call` names its second parameter
`_`, so the embedding takes it at any type.  `TRACE.Println` writes to a logger that
is not part of the controller and is left out. -/
def Call {FilterChain : Type} (implements : GoType → GoType → Bool) (c : Controller)
    (_ : FilterChain) : Outcome :=
  match MethodByName c.AppController c.MethodType.Name with
  | Except.error p => ⟨c, [], [], [], [], [], [], some p⟩
  | Except.ok methodValue =>
    let st := collectArgs c c.MethodType.Args ⟨[], [], none⟩
    match st.panic with
    | some p => ⟨c, st.asked, st.methodArgs, [], [], [], [], some p⟩
    | none =>
      match methodValue with
      | none =>
        ⟨c, st.asked, st.methodArgs, [], [], [], [],
          some (Panic.valueError "reflect.Value.Type")⟩
      | some m =>
        let r := reflectCall implements m.typ.IsVariadic m st.methodArgs
        let inv : Invocation := ⟨m.typ.IsVariadic, st.methodArgs⟩
        match r.results with
        | Except.error p =>
          ⟨c, st.asked, st.methodArgs, [inv], r.entered.toList, [], [], some p⟩
        | Except.ok results =>
          let cap := captureResult implements c results
          ⟨cap.1, st.asked, st.methodArgs, [inv], r.entered.toList, [results], cap.2.1,
            cap.2.2⟩

/-! ## Vocabulary of the properties -/

/-- The `(name, type)` pairs of the declared parameters whose type is not
`websocketType`, in declared order. -/
def binderQueries (args : List MethodArg) : List (String × GoType) :=
  (args.filter (fun a => decide (a.Typ ≠ websocketType))).map (fun a => (a.Name, a.Typ))

/-- A Value whose type is assignable to the parameter type `t`. -/
def assignableValue (implements : GoType → GoType → Bool) (v : Value) (t : GoType) : Prop :=
  ∃ xt, v.Typ = Except.ok xt ∧ AssignableTo implements xt t = true

/-- A dynamic value satisfies `Result`: its type implements the interface. -/
def satisfiesResult (implements : GoType → GoType → Bool) (d : Value) : Bool :=
  match d.Typ with
  | Except.ok t => implements t resultType
  | Except.error _ => false

/-- The panics raised by `reflect` when the method cannot be dispatched. -/
def Panic.isDispatch : Panic → Bool
  | Panic.valueError _ => true
  | Panic.callSliceNonVariadic => true
  | Panic.tooFewArguments => true
  | Panic.tooManyArguments => true
  | Panic.zeroValueArgument => true
  | Panic.notAssignable _ => true
  | Panic.cannotUseInCall _ => true
  | _ => false

/-- The state in which the loop over the declared parameters ends. -/
def collected (c : Controller) : Collected :=
  collectArgs c c.MethodType.Args ⟨[], [], none⟩

/-- The arguments `actual` with which the body of `m` is entered when `reflect` accepts
the argument list `args`: the list itself for a method that is not variadic, the
list with its final slice spread for a variadic one. -/
def entersWith (m : Method) (args actual : List Value) : Prop :=
  (m.typ.IsVariadic = false ∧ actual = args) ∨
    (m.typ.IsVariadic = true ∧
      ∃ e init xs, m.typ.variadic = some e ∧ args = init ++ [Value.slice e xs] ∧
        actual = init ++ xs)

/-- Whether the reflective call was refused or the binder panicked: the panic `p` that
ended `Call` is one of `reflect`'s dispatch panics, or the panic of a consultation of
the binder. -/
def fatalCause (c : Controller) (o : Outcome) (p : Panic) : Prop :=
  p.isDispatch = true ∨ ∃ q ∈ o.asked, c.Params.Bind q.1 q.2 = Except.error p

/-- An execution that ended in a fatal error before the method body was entered, with
`c.Result` as it was. -/
def endsFatally (c : Controller) (o : Outcome) : Prop :=
  o.runs = [] ∧ o.returned = [] ∧ o.writes = [] ∧ o.c.Result = c.Result ∧
    ∃ p, o.panic = some p ∧ fatalCause c o p

/-! ## Scenarios -/

/-- A program in which `*revel.RenderTextResult` is the one type with the method of
`Result`, and every type satisfies the empty interface. -/
def scenarioImplements : GoType → GoType → Bool :=
  fun t i => decide (i = GoType.iface "interface {}") ||
    (decide (t = GoType.ptr "revel.RenderTextResult") && decide (i = resultType))

/-- A non-nil `*revel.RenderTextResult`. -/
def renderText : Value := Value.ptr "revel.RenderTextResult" (some 1)

/-- A binder that knows `name = "Ada"` and `times = 3` and panics on anything else. -/
def scenarioBinder : Params :=
  ⟨fun name _ =>
    if name = "name" then Except.ok (Value.string "Ada")
    else if name = "times" then Except.ok (Value.int 3)
    else if name = "tags" then
      Except.ok (Value.slice GoType.string
        [Value.string "a", Value.string "b", Value.string "c"])
    else Except.error (Panic.raised "no such parameter")⟩

/-- A binder that panics whenever it is consulted. -/
def panickingBinder : Params := ⟨fun _ _ => Except.error (Panic.raised "binder consulted")⟩

/-- A controller for one action: the handler has the single method `name` of type
`typ` with body `body`, and the descriptor declares `args`. -/
def scenario (name : String) (typ : FuncType) (body : List Value → Except Panic (List Value))
    (args : List MethodArg) (ws : Option Nat) (binder : Params) : Controller :=
  ⟨some ⟨[(name, ⟨typ, body⟩)]⟩, ⟨name, args⟩, ⟨ws⟩, binder, none⟩

/-- The action `func (c App) Greet(name string, times int) revel.Result`, returning a
nil `Result`. -/
def greet : Controller :=
  scenario "Greet" ⟨[GoType.string, GoType.int], none⟩
    (fun _ => Except.ok [Value.iface "revel.Result" none])
    [⟨"name", GoType.string⟩, ⟨"times", GoType.int⟩] none scenarioBinder

/-- The action `func (c App) Stream(conn *websocket.Conn) revel.Result` on a request
with the connection `7` attached, under a binder that panics when consulted. -/
def stream : Controller :=
  scenario "Stream" ⟨[websocketType], none⟩
    (fun _ => Except.ok [Value.iface "revel.Result" none])
    [⟨"conn", websocketType⟩] (some 7) panickingBinder

/-- The action `func (c App) Chat(name string, conn *websocket.Conn, times int)
revel.Result` on a request with the connection `7` attached: the connection parameter
stands between two parameters that go to the binder. -/
def chat : Controller :=
  scenario "Chat" ⟨[GoType.string, websocketType, GoType.int], none⟩
    (fun _ => Except.ok [Value.iface "revel.Result" none])
    [⟨"name", GoType.string⟩, ⟨"conn", websocketType⟩, ⟨"times", GoType.int⟩] (some 7)
    scenarioBinder

/-- The action `func (c App) LogAll(tags ...string) revel.Result`. -/
def logAll : Controller :=
  scenario "LogAll" ⟨[], some GoType.string⟩
    (fun _ => Except.ok [Value.iface "revel.Result" none])
    [⟨"tags", GoType.slice GoType.string⟩] none scenarioBinder

/-- The action `func (c App) Show() revel.Result`, returning a `*RenderTextResult`. -/
def showInterface : Controller :=
  scenario "Show" ⟨[], none⟩ (fun _ => Except.ok [Value.iface "revel.Result" (some renderText)])
    [] none scenarioBinder

/-- The action `func (c App) Show() *revel.RenderTextResult`: the same value, returned
with its concrete type. -/
def showConcrete : Controller :=
  scenario "Show" ⟨[], none⟩ (fun _ => Except.ok [renderText]) [] none scenarioBinder

/-- The action `func (c App) Name() string`. -/
def plainString : Controller :=
  scenario "Name" ⟨[], none⟩ (fun _ => Except.ok [Value.string "hello"]) [] none scenarioBinder

/-- The action `func (c App) Any() interface{}`, returning a string. -/
def stringInInterface : Controller :=
  scenario "Any" ⟨[], none⟩
    (fun _ => Except.ok [Value.iface "interface {}" (some (Value.string "hello"))])
    [] none scenarioBinder

/-- The action `func (c App) Quiet()`, without results. -/
def noResults : Controller :=
  scenario "Quiet" ⟨[], none⟩ (fun _ => Except.ok []) [] none scenarioBinder

/-- The action `Greet` with a descriptor that declares a parameter unknown to the
binder between the two known ones. -/
def greetUnbound : Controller :=
  scenario "Greet" ⟨[GoType.string, GoType.int], none⟩
    (fun _ => Except.ok [Value.iface "revel.Result" (some renderText)])
    [⟨"name", GoType.string⟩, ⟨"missing", GoType.int⟩, ⟨"times", GoType.int⟩] none
    scenarioBinder

/-- A descriptor naming `Greet` on a handler whose only method is `Hello`. -/
def greetMissing : Controller :=
  { greet with MethodType := ⟨"Greet", [⟨"name", GoType.string⟩]⟩,
               AppController := some ⟨[("Hello", ⟨⟨[GoType.string], none⟩,
                 fun _ => Except.ok [Value.iface "revel.Result" (some renderText)]⟩)]⟩ }

/-- The method `Greet(name string, times int)` under a descriptor that declares `name`
only. -/
def greetShort : Controller :=
  scenario "Greet" ⟨[GoType.string, GoType.int], none⟩
    (fun _ => Except.ok [Value.iface "revel.Result" (some renderText)])
    [⟨"name", GoType.string⟩] none scenarioBinder

/-- The method `LogAll(tags ...string)` under a descriptor that binds a string to
`name` as its final parameter. -/
def logAllString : Controller :=
  scenario "LogAll" ⟨[], some GoType.string⟩
    (fun _ => Except.ok [Value.iface "revel.Result" (some renderText)])
    [⟨"name", GoType.string⟩] none scenarioBinder

/-! ## The loop over the declared parameters -/

theorem binderQueries_cons_websocket (arg : MethodArg) (rest : List MethodArg)
    (h : arg.Typ = websocketType) : binderQueries (arg :: rest) = binderQueries rest := by
  simp [binderQueries, h]

theorem binderQueries_cons_other (arg : MethodArg) (rest : List MethodArg)
    (h : ¬ arg.Typ = websocketType) :
    binderQueries (arg :: rest) = (arg.Name, arg.Typ) :: binderQueries rest := by
  simp [binderQueries, h]

theorem boundArg_websocket (c : Controller) (arg : MethodArg) (h : arg.Typ = websocketType) :
    boundArg c arg = Except.ok (ValueOfWebsocket c.Request.Websocket) := by
  simp [boundArg, h]

theorem boundArg_other (c : Controller) (arg : MethodArg) (h : ¬ arg.Typ = websocketType) :
    boundArg c arg = c.Params.Bind arg.Name arg.Typ := by
  simp [boundArg, h]

/-- The binder is asked for an initial segment of the non-connection parameters. -/
theorem collectArgs_asked (c : Controller) (args : List MethodArg) :
    ∀ st : Collected, ∃ k, (collectArgs c args st).asked = st.asked ++ (binderQueries args).take k := by
  induction args with
  | nil => intro st; exact ⟨0, by simp [collectArgs]⟩
  | cons arg rest ih =>
    intro st
    by_cases h : arg.Typ = websocketType
    · obtain ⟨k, hk⟩ := ih ⟨st.methodArgs ++ [ValueOfWebsocket c.Request.Websocket], st.asked, none⟩
      exact ⟨k, by simp only [collectArgs, if_pos h, hk, binderQueries_cons_websocket arg rest h]⟩
    · cases hb : c.Params.Bind arg.Name arg.Typ with
      | error p =>
        exact ⟨1, by simp [collectArgs, h, hb, binderQueries_cons_other arg rest h]⟩
      | ok v =>
        obtain ⟨k, hk⟩ := ih ⟨st.methodArgs ++ [v], st.asked ++ [(arg.Name, arg.Typ)], none⟩
        exact ⟨k + 1, by
          simp only [collectArgs, if_neg h, hb, hk, binderQueries_cons_other arg rest h]
          simp⟩

/-- Each collected value is the bound value of the parameter at its position. -/
theorem collectArgs_methodArgs (c : Controller) (args : List MethodArg) :
    ∀ st : Collected, ∃ vs, (collectArgs c args st).methodArgs = st.methodArgs ++ vs ∧
      List.Forall₂ (fun p v => boundArg c p = Except.ok v) (args.take vs.length) vs := by
  induction args with
  | nil => intro st; exact ⟨[], by simp [collectArgs]⟩
  | cons arg rest ih =>
    intro st
    by_cases h : arg.Typ = websocketType
    · obtain ⟨vs, hvs, hall⟩ :=
        ih ⟨st.methodArgs ++ [ValueOfWebsocket c.Request.Websocket], st.asked, none⟩
      refine ⟨ValueOfWebsocket c.Request.Websocket :: vs, ?_, ?_⟩
      · simp only [collectArgs, if_pos h, hvs]; simp
      · simpa using ⟨boundArg_websocket c arg h, hall⟩
    · cases hb : c.Params.Bind arg.Name arg.Typ with
      | error p => exact ⟨[], by simp [collectArgs, h, hb]⟩
      | ok v =>
        obtain ⟨vs, hvs, hall⟩ :=
          ih ⟨st.methodArgs ++ [v], st.asked ++ [(arg.Name, arg.Typ)], none⟩
        refine ⟨v :: vs, ?_, ?_⟩
        · simp only [collectArgs, if_neg h, hb, hvs]; simp
        · simpa using ⟨(boundArg_other c arg h).trans hb, hall⟩

/-- A loop that ends without a panic has bound every parameter and asked the binder
for every non-connection parameter. -/
theorem collectArgs_complete (c : Controller) (args : List MethodArg) :
    ∀ st : Collected, (collectArgs c args st).panic = none →
      (collectArgs c args st).methodArgs.length = st.methodArgs.length + args.length ∧
      (collectArgs c args st).asked = st.asked ++ binderQueries args := by
  induction args with
  | nil => intro st _; simp [collectArgs, binderQueries]
  | cons arg rest ih =>
    intro st hp
    by_cases h : arg.Typ = websocketType
    · simp only [collectArgs, if_pos h] at hp ⊢
      obtain ⟨h1, h2⟩ := ih _ hp
      rw [h1, h2, binderQueries_cons_websocket arg rest h]
      simp; omega
    · cases hb : c.Params.Bind arg.Name arg.Typ with
      | error p => simp [collectArgs, h, hb] at hp
      | ok v =>
        simp only [collectArgs, if_neg h, hb] at hp ⊢
        obtain ⟨h1, h2⟩ := ih _ hp
        rw [h1, h2, binderQueries_cons_other arg rest h]
        simp; omega

/-- The loop stops at the first consultation of the binder that panics: that panic is
the loop's, it is the last consultation, and every earlier one returned a value. -/
theorem collectArgs_failure (c : Controller) (args : List MethodArg) :
    ∀ st : Collected, st.panic = none →
      (∀ q ∈ st.asked, ∃ v, c.Params.Bind q.1 q.2 = Except.ok v) →
      ((collectArgs c args st).panic = none →
        ∀ q ∈ (collectArgs c args st).asked, ∃ v, c.Params.Bind q.1 q.2 = Except.ok v) ∧
      (∀ e, (collectArgs c args st).panic = some e →
        ∃ front q, (collectArgs c args st).asked = front ++ [q] ∧
          c.Params.Bind q.1 q.2 = Except.error e ∧
          ∀ r ∈ front, ∃ v, c.Params.Bind r.1 r.2 = Except.ok v) := by
  induction args with
  | nil =>
    intro st hp hall
    refine ⟨fun _ => by simpa [collectArgs] using hall, fun e he => ?_⟩
    simp [collectArgs, hp] at he
  | cons arg rest ih =>
    intro st hp hall
    by_cases h : arg.Typ = websocketType
    · simp only [collectArgs, if_pos h]
      exact ih _ rfl hall
    · cases hb : c.Params.Bind arg.Name arg.Typ with
      | error p =>
        simp only [collectArgs, if_neg h, hb]
        refine ⟨fun hn => by simp at hn, fun e he => ?_⟩
        have hpe : p = e := by simpa using he
        exact ⟨st.asked, (arg.Name, arg.Typ), rfl, hpe ▸ hb, hall⟩
      | ok v =>
        simp only [collectArgs, if_neg h, hb]
        refine ih _ rfl ?_
        intro q hq
        rcases List.mem_append.mp hq with hq | hq
        · exact hall q hq
        · have hqe : q = (arg.Name, arg.Typ) := by simpa using hq
          exact ⟨v, hqe ▸ hb⟩

/-! ## The reflective call -/

theorem Value.Kind_ne_Invalid_of_Typ {v : Value} {t : GoType} (h : v.Typ = Except.ok t) :
    v.Kind ≠ Kind.Invalid := by
  cases v <;> simp [Value.Typ, Value.Kind] at h ⊢

/-- A Value assignable to a slice type is a slice of that type. -/
theorem assignableValue_slice {implements : GoType → GoType → Bool} {v : Value} {e : GoType}
    (h : assignableValue implements v (GoType.slice e)) : ∃ xs, v = Value.slice e xs := by
  obtain ⟨xt, hxt, ha⟩ := h
  have hx : xt = GoType.slice e := by
    simpa [AssignableTo, GoType.isInterface] using ha
  subst hx
  cases v <;> simp [Value.Typ] at hxt
  case slice e2 xs => exact ⟨xs, by rw [hxt]⟩

/-- The scan for a non-assignable argument finds none exactly when every argument is
assignable to the parameter type at its position. -/
theorem firstNotAssignable_eq_none (implements : GoType → GoType → Bool) :
    ∀ (xs : List Value) (ts : List GoType) (i : Nat), xs.length = ts.length →
      (firstNotAssignable implements i xs ts = none ↔
        List.Forall₂ (assignableValue implements) xs ts) := by
  intro xs
  induction xs with
  | nil =>
    intro ts i hlen
    cases ts with
    | nil => simp [firstNotAssignable]
    | cons t ts => simp at hlen
  | cons x xs ih =>
    intro ts i hlen
    cases ts with
    | nil => simp at hlen
    | cons t ts =>
      have hlen2 : xs.length = ts.length := by simpa using hlen
      cases hx : x.Typ with
      | error p =>
        simp [firstNotAssignable, hx, assignableValue]
      | ok xt =>
        by_cases ha : AssignableTo implements xt t = true
        · simp [firstNotAssignable, hx, ha, assignableValue, ih ts (i + 1) hlen2]
        · simp [firstNotAssignable, hx, ha, assignableValue]

theorem any_invalid_eq_false {implements : GoType → GoType → Bool} {args : List Value}
    {ts : List GoType} (h : List.Forall₂ (assignableValue implements) args ts) :
    args.any (fun x => decide (x.Kind = Kind.Invalid)) = false := by
  induction h with
  | nil => rfl
  | cons hab _ ih =>
    obtain ⟨xt, hxt, _⟩ := hab
    simp [Value.Kind_ne_Invalid_of_Typ hxt, ih]

/-- A non-variadic method whose parameter types accept the arguments is entered by
`Call` with exactly those arguments. -/
theorem reflectCall_fixed (implements : GoType → GoType → Bool) (m : Method)
    (args : List Value) (hv : m.typ.variadic = none)
    (h : List.Forall₂ (assignableValue implements) args m.typ.ins) :
    reflectCall implements false m args = ⟨some args, m.body args⟩ := by
  have hlen := h.length_eq
  have hany := any_invalid_eq_false h
  have hscan := (firstNotAssignable_eq_none implements args m.typ.ins 0 hlen).mpr h
  simp only [reflectCall, FuncType.IsVariadic, FuncType.NumIn, hv, ← hlen]
  simp [hany, hscan]

/-- A variadic method whose parameter types accept the arguments is entered by
`CallSlice` with the elements of the final argument as its variadic arguments. -/
theorem reflectCall_variadic (implements : GoType → GoType → Bool) (m : Method)
    (args : List Value) (e : GoType) (hv : m.typ.variadic = some e)
    (h : List.Forall₂ (assignableValue implements) args m.typ.ins) :
    ∃ init xs, args = init ++ [Value.slice e xs] ∧
      reflectCall implements true m args = ⟨some (init ++ xs), m.body (init ++ xs)⟩ := by
  have hlen := h.length_eq
  have hany := any_invalid_eq_false h
  have hscan := (firstNotAssignable_eq_none implements args m.typ.ins 0 hlen).mpr h
  have hins : m.typ.ins = m.typ.fixed ++ [GoType.slice e] := by simp [FuncType.ins, hv]
  rw [hins] at h
  have hdrop := List.forall₂_drop_append args m.typ.fixed [GoType.slice e] h
  obtain ⟨last, rest, hlast, hrest, hd⟩ := List.forall₂_cons_right_iff.mp hdrop
  have hrest2 : rest = [] := List.forall₂_nil_right_iff.mp hrest
  subst hrest2
  obtain ⟨xs, hxs⟩ := assignableValue_slice hlast
  subst hxs
  have hsplit : args = args.take m.typ.fixed.length ++ [Value.slice e xs] := by
    rw [← hd]; exact (List.take_append_drop _ _).symm
  have hfl : (args.take m.typ.fixed.length).length = m.typ.fixed.length := by
    have : args.length = m.typ.fixed.length + 1 := by rw [hlen, hins]; simp
    simp; omega
  refine ⟨args.take m.typ.fixed.length, xs, hsplit, ?_⟩
  generalize args.take m.typ.fixed.length = init at hsplit hfl
  subst hsplit
  have htk : List.take (m.typ.fixed.length + 1) (init ++ [Value.slice e xs]) =
      init ++ [Value.slice e xs] := List.take_of_length_le (by simp [hfl])
  rw [hins] at hscan
  simp only [reflectCall, FuncType.IsVariadic, FuncType.NumIn, hv]
  rw [hins]
  simp [hany, hscan, hfl, spread, List.getD, htk]

/-- Arguments that the parameter types do not accept make the reflective call panic
before the method body is entered. -/
theorem reflectCall_reject (implements : GoType → GoType → Bool) (m : Method)
    (args : List Value)
    (h : ¬ List.Forall₂ (assignableValue implements) args m.typ.ins) :
    ∃ p, reflectCall implements m.typ.IsVariadic m args = CallResult.fail p ∧
      p.isDispatch = true := by
  by_cases h1 : args.length < m.typ.NumIn
  · refine ⟨Panic.tooFewArguments, ?_, rfl⟩
    cases hv : m.typ.variadic <;> simp [reflectCall, FuncType.IsVariadic, hv, h1]
  · by_cases h2 : m.typ.NumIn < args.length
    · refine ⟨Panic.tooManyArguments, ?_, rfl⟩
      cases hv : m.typ.variadic <;> simp [reflectCall, FuncType.IsVariadic, hv, h1, h2]
    · have hlen : args.length = m.typ.ins.length := by
        simp only [FuncType.NumIn] at h1 h2; omega
      by_cases h3 : args.any (fun x => decide (x.Kind = Kind.Invalid)) = true
      · refine ⟨Panic.zeroValueArgument, ?_, rfl⟩
        cases hv : m.typ.variadic <;>
          simp only [reflectCall, FuncType.IsVariadic, hv, h3] <;> simp [h1, h2]
      · have hscan : firstNotAssignable implements 0 args m.typ.ins ≠ none :=
          fun hn => h ((firstNotAssignable_eq_none implements args m.typ.ins 0 hlen).mp hn)
        obtain ⟨i, hi⟩ := Option.ne_none_iff_exists.mp hscan
        refine ⟨Panic.notAssignable i, ?_, rfl⟩
        have htake : args.take m.typ.NumIn = args := by
          simp [FuncType.NumIn, ← hlen]
        cases hv : m.typ.variadic <;>
          simp only [reflectCall, FuncType.IsVariadic, hv, h3] <;>
          simp [h1, h2, htake, ← hi]

/-! ## The result capture -/

theorem captureResult_nil (implements : GoType → GoType → Bool) (c : Controller) :
    captureResult implements c [] = (c, [], some Panic.indexOutOfRange) := rfl

theorem captureResult_concrete (implements : GoType → GoType → Bool) (c : Controller)
    (v : Value) (rest : List Value) (h : v.Kind ≠ Kind.Interface) :
    captureResult implements c (v :: rest) = (c, [], none) := by
  simp [captureResult, h]

theorem captureResult_nil_interface (implements : GoType → GoType → Bool) (c : Controller)
    (name : String) (rest : List Value) :
    captureResult implements c (Value.iface name none :: rest) = (c, [], none) := by
  simp [captureResult, Value.Kind, Value.IsNil]

theorem captureResult_satisfying (implements : GoType → GoType → Bool) (c : Controller)
    (name : String) (d : Value) (rest : List Value) (h : satisfiesResult implements d = true) :
    captureResult implements c (Value.iface name (some d) :: rest) =
      ({ c with Result := some d }, [d], none) := by
  unfold satisfiesResult at h
  cases hd : d.Typ with
  | error p => simp [hd] at h
  | ok t =>
    simp only [hd] at h
    simp [captureResult, Value.Kind, Value.IsNil, Value.Interface, hd, h]

theorem captureResult_unsatisfying (implements : GoType → GoType → Bool) (c : Controller)
    (name : String) (d : Value) (rest : List Value) (h : satisfiesResult implements d = false) :
    captureResult implements c (Value.iface name (some d) :: rest) =
      (c, [], some Panic.typeAssertion) := by
  unfold satisfiesResult at h
  cases hd : d.Typ with
  | error p => simp [captureResult, Value.Kind, Value.IsNil, Value.Interface, hd]
  | ok t =>
    simp only [hd] at h
    simp [captureResult, Value.Kind, Value.IsNil, Value.Interface, hd, h]

/-- The capture looks at index 0 only. -/
theorem captureResult_head (implements : GoType → GoType → Bool) (c : Controller)
    (v : Value) (rest : List Value) :
    captureResult implements c (v :: rest) = captureResult implements c [v] := rfl

/-- The capture changes no field of the controller but `Result`, and it writes at
most once, a value that satisfies `Result`. -/
theorem captureResult_frame (implements : GoType → GoType → Bool) (c : Controller)
    (results : List Value) :
    ((captureResult implements c results).1 = c ∧
        (captureResult implements c results).2.1 = []) ∨
      ∃ d, (captureResult implements c results).1 = { c with Result := some d } ∧
        (captureResult implements c results).2.1 = [d] ∧
        (captureResult implements c results).2.2 = none ∧
        satisfiesResult implements d = true := by
  cases results with
  | nil => exact Or.inl ⟨rfl, rfl⟩
  | cons v rest =>
    cases v with
    | iface name dyn =>
      cases dyn with
      | none => rw [captureResult_nil_interface]; exact Or.inl ⟨rfl, rfl⟩
      | some d =>
        cases hs : satisfiesResult implements d with
        | true =>
          rw [captureResult_satisfying implements c name d rest hs]
          exact Or.inr ⟨d, rfl, rfl, rfl, hs⟩
        | false =>
          rw [captureResult_unsatisfying implements c name d rest hs]
          exact Or.inl ⟨rfl, rfl⟩
    | _ =>
      rw [captureResult_concrete implements c _ rest (by simp [Value.Kind])]
      exact Or.inl ⟨rfl, rfl⟩

/-! ## The shape of an execution of `Call` -/

theorem Call_nil_handler {F : Type} (implements : GoType → GoType → Bool) (c : Controller)
    (fc : F) (h : c.AppController = none) :
    Call implements c fc =
      ⟨c, [], [], [], [], [], [], some (Panic.valueError "reflect.Value.MethodByName")⟩ := by
  simp [Call, MethodByName, h]

theorem Call_bind_panic {F : Type} (implements : GoType → GoType → Bool) (c : Controller)
    (fc : F) (inst : Instance) (p : Panic) (h : c.AppController = some inst)
    (hp : (collected c).panic = some p) :
    Call implements c fc =
      ⟨c, (collected c).asked, (collected c).methodArgs, [], [], [], [], some p⟩ := by
  unfold collected at hp
  simp [Call, MethodByName, h, hp, collected]

theorem Call_no_method {F : Type} (implements : GoType → GoType → Bool) (c : Controller)
    (fc : F) (inst : Instance) (h : c.AppController = some inst)
    (hp : (collected c).panic = none)
    (hm : inst.methods.lookup c.MethodType.Name = none) :
    Call implements c fc =
      ⟨c, (collected c).asked, (collected c).methodArgs, [], [], [], [],
        some (Panic.valueError "reflect.Value.Type")⟩ := by
  unfold collected at hp
  simp [Call, MethodByName, h, hp, hm, collected]

theorem Call_reflect_panic {F : Type} (implements : GoType → GoType → Bool) (c : Controller)
    (fc : F) (inst : Instance) (m : Method) (p : Panic) (h : c.AppController = some inst)
    (hp : (collected c).panic = none)
    (hm : inst.methods.lookup c.MethodType.Name = some m)
    (hr : (reflectCall implements m.typ.IsVariadic m (collected c).methodArgs).results =
      Except.error p) :
    Call implements c fc =
      ⟨c, (collected c).asked, (collected c).methodArgs,
        [⟨m.typ.IsVariadic, (collected c).methodArgs⟩],
        (reflectCall implements m.typ.IsVariadic m (collected c).methodArgs).entered.toList,
        [], [], some p⟩ := by
  unfold collected at hp hr
  simp [Call, MethodByName, h, hp, hm, hr, collected]

theorem Call_returned {F : Type} (implements : GoType → GoType → Bool) (c : Controller)
    (fc : F) (inst : Instance) (m : Method) (results : List Value)
    (h : c.AppController = some inst) (hp : (collected c).panic = none)
    (hm : inst.methods.lookup c.MethodType.Name = some m)
    (hr : (reflectCall implements m.typ.IsVariadic m (collected c).methodArgs).results =
      Except.ok results) :
    Call implements c fc =
      ⟨(captureResult implements c results).1, (collected c).asked,
        (collected c).methodArgs, [⟨m.typ.IsVariadic, (collected c).methodArgs⟩],
        (reflectCall implements m.typ.IsVariadic m (collected c).methodArgs).entered.toList,
        [results], (captureResult implements c results).2.1,
        (captureResult implements c results).2.2⟩ := by
  unfold collected at hp hr
  simp [Call, MethodByName, h, hp, hm, hr, collected]

/-- Arguments that the parameter types accept reach the method body. -/
theorem reflectCall_accept (implements : GoType → GoType → Bool) (m : Method)
    (args : List Value) (h : List.Forall₂ (assignableValue implements) args m.typ.ins) :
    ∃ actual, entersWith m args actual ∧
      reflectCall implements m.typ.IsVariadic m args = ⟨some actual, m.body actual⟩ := by
  cases hv : m.typ.variadic with
  | none =>
    refine ⟨args, Or.inl ⟨by simp [FuncType.IsVariadic, hv], rfl⟩, ?_⟩
    have := reflectCall_fixed implements m args hv h
    simpa [FuncType.IsVariadic, hv] using this
  | some e =>
    obtain ⟨init, xs, hsplit, hcall⟩ := reflectCall_variadic implements m args e hv h
    refine ⟨init ++ xs, Or.inr ⟨by simp [FuncType.IsVariadic, hv], e, init, xs, hv, hsplit, rfl⟩, ?_⟩
    simpa [FuncType.IsVariadic, hv] using hcall

/-- The five ways in which an execution of `Call` ends, with the whole outcome of each:
a nil handler, a panic of the binder, a missing method, an argument list that `reflect`
refuses, and a method body that was entered (and then panicked or returned). -/
theorem Call_cases {F : Type} (implements : GoType → GoType → Bool) (c : Controller)
    (fc : F) :
    (c.AppController = none ∧
      Call implements c fc =
        ⟨c, [], [], [], [], [], [], some (Panic.valueError "reflect.Value.MethodByName")⟩) ∨
    (∃ inst p, c.AppController = some inst ∧ (collected c).panic = some p ∧
      Call implements c fc =
        ⟨c, (collected c).asked, (collected c).methodArgs, [], [], [], [], some p⟩) ∨
    (∃ inst, c.AppController = some inst ∧ (collected c).panic = none ∧
      inst.methods.lookup c.MethodType.Name = none ∧
      Call implements c fc =
        ⟨c, (collected c).asked, (collected c).methodArgs, [], [], [], [],
          some (Panic.valueError "reflect.Value.Type")⟩) ∨
    (∃ inst m p, c.AppController = some inst ∧ (collected c).panic = none ∧
      inst.methods.lookup c.MethodType.Name = some m ∧
      ¬ List.Forall₂ (assignableValue implements) (collected c).methodArgs m.typ.ins ∧
      p.isDispatch = true ∧
      Call implements c fc =
        ⟨c, (collected c).asked, (collected c).methodArgs,
          [⟨m.typ.IsVariadic, (collected c).methodArgs⟩], [], [], [], some p⟩) ∨
    (∃ inst m actual p, c.AppController = some inst ∧ (collected c).panic = none ∧
      inst.methods.lookup c.MethodType.Name = some m ∧
      List.Forall₂ (assignableValue implements) (collected c).methodArgs m.typ.ins ∧
      entersWith m (collected c).methodArgs actual ∧ m.body actual = Except.error p ∧
      Call implements c fc =
        ⟨c, (collected c).asked, (collected c).methodArgs,
          [⟨m.typ.IsVariadic, (collected c).methodArgs⟩], [actual], [], [], some p⟩) ∨
    (∃ inst m actual results, c.AppController = some inst ∧ (collected c).panic = none ∧
      inst.methods.lookup c.MethodType.Name = some m ∧
      List.Forall₂ (assignableValue implements) (collected c).methodArgs m.typ.ins ∧
      entersWith m (collected c).methodArgs actual ∧ m.body actual = Except.ok results ∧
      Call implements c fc =
        ⟨(captureResult implements c results).1, (collected c).asked,
          (collected c).methodArgs, [⟨m.typ.IsVariadic, (collected c).methodArgs⟩],
          [actual], [results], (captureResult implements c results).2.1,
          (captureResult implements c results).2.2⟩) := by
  cases h : c.AppController with
  | none => exact Or.inl ⟨rfl, Call_nil_handler implements c fc h⟩
  | some inst =>
    right
    cases hp : (collected c).panic with
    | some p => exact Or.inl ⟨inst, p, rfl, rfl, Call_bind_panic implements c fc inst p h hp⟩
    | none =>
      right
      cases hm : inst.methods.lookup c.MethodType.Name with
      | none => exact Or.inl ⟨inst, rfl, rfl, hm, Call_no_method implements c fc inst h hp hm⟩
      | some m =>
        right
        by_cases hacc : List.Forall₂ (assignableValue implements) (collected c).methodArgs
            m.typ.ins
        · right
          obtain ⟨actual, hent, hcall⟩ := reflectCall_accept implements m _ hacc
          cases hb : m.body actual with
          | error p =>
            refine Or.inl ⟨inst, m, actual, p, rfl, rfl, hm, hacc, hent, hb, ?_⟩
            have := Call_reflect_panic implements c fc inst m p h hp hm (by rw [hcall, hb])
            rw [this, hcall]; rfl
          | ok results =>
            refine Or.inr ⟨inst, m, actual, results, rfl, rfl, hm, hacc, hent, hb, ?_⟩
            have := Call_returned implements c fc inst m results h hp hm (by rw [hcall, hb])
            rw [this, hcall]; rfl
        · obtain ⟨p, hcall, hdis⟩ := reflectCall_reject implements m _ hacc
          refine Or.inl ⟨inst, m, p, rfl, rfl, hm, hacc, hdis, ?_⟩
          have := Call_reflect_panic implements c fc inst m p h hp hm (by rw [hcall]; rfl)
          rw [this, hcall]; rfl

/-! ## Facts about the collected arguments -/

theorem forall₂_index {α β : Type} {R : α → β → Prop} {ps : List α} {vs : List β}
    (h : List.Forall₂ R ps vs) :
    ∀ (i : Nat) (p : α), ps[i]? = some p → ∃ v, vs[i]? = some v ∧ R p v := by
  induction h with
  | nil => intro i p hp; simp at hp
  | cons hab _ ih =>
    intro i p hp
    cases i with
    | zero =>
      simp only [List.getElem?_cons_zero, Option.some.injEq] at hp
      exact ⟨_, by simp, hp ▸ hab⟩
    | succ j =>
      simp only [List.getElem?_cons_succ] at hp ⊢
      exact ih j p hp

theorem forall₂_take_index {α β : Type} {R : α → β → Prop} {ps : List α} {vs : List β}
    (h : List.Forall₂ R (ps.take vs.length) vs) :
    ∀ (i : Nat) (p : α) (v : β), ps[i]? = some p → vs[i]? = some v → R p v := by
  intro i p v hp hv
  have hi : i < vs.length := by
    rcases Nat.lt_or_ge i vs.length with hlt | hge
    · exact hlt
    · rw [List.getElem?_eq_none hge] at hv; cases hv
  have hp2 : (ps.take vs.length)[i]? = some p := by
    rw [List.getElem?_take_of_lt hi]; exact hp
  obtain ⟨w, hw, hR⟩ := forall₂_index h i p hp2
  rw [hv] at hw
  cases hw
  exact hR

/-- The values collected so far are the bound values of the leading parameters. -/
theorem collected_methodArgs (c : Controller) :
    List.Forall₂ (fun p v => boundArg c p = Except.ok v)
      (c.MethodType.Args.take (collected c).methodArgs.length) (collected c).methodArgs := by
  obtain ⟨vs, hvs, hall⟩ := collectArgs_methodArgs c c.MethodType.Args ⟨[], [], none⟩
  have : (collected c).methodArgs = vs := by simpa [collected] using hvs
  rw [this]; exact hall

/-- The binder has been asked for an initial segment of the non-connection parameters. -/
theorem collected_asked (c : Controller) :
    ∃ k, (collected c).asked = (binderQueries c.MethodType.Args).take k := by
  obtain ⟨k, hk⟩ := collectArgs_asked c c.MethodType.Args ⟨[], [], none⟩
  exact ⟨k, by simpa [collected] using hk⟩

/-- A loop that ends without a panic has bound every declared parameter. -/
theorem collected_complete (c : Controller) (h : (collected c).panic = none) :
    List.Forall₂ (fun p v => boundArg c p = Except.ok v) c.MethodType.Args
        (collected c).methodArgs ∧
      (collected c).asked = binderQueries c.MethodType.Args := by
  obtain ⟨hlen, hasked⟩ := collectArgs_complete c c.MethodType.Args ⟨[], [], none⟩ h
  have hlen2 : (collected c).methodArgs.length = c.MethodType.Args.length := by
    simpa [collected] using hlen
  have hall := collected_methodArgs c
  rw [hlen2, List.take_length] at hall
  exact ⟨hall, by simpa [collected] using hasked⟩

/-- When every declared parameter has a bound value, the loop collects those values. -/
theorem collectArgs_of_bound (c : Controller) (args : List MethodArg) (vs : List Value)
    (h : List.Forall₂ (fun p v => boundArg c p = Except.ok v) args vs) :
    ∀ st : Collected, st.panic = none →
      collectArgs c args st = ⟨st.methodArgs ++ vs, st.asked ++ binderQueries args, none⟩ := by
  induction h with
  | nil =>
    intro st hp
    cases st
    simp only at hp
    simp [collectArgs, binderQueries, hp]
  | @cons arg v rest vs2 hab _ ih =>
    intro st _
    by_cases hw : arg.Typ = websocketType
    · rw [boundArg_websocket c arg hw] at hab
      have hv : ValueOfWebsocket c.Request.Websocket = v := by simpa using hab
      simp only [collectArgs, if_pos hw]
      rw [ih _ rfl, binderQueries_cons_websocket arg rest hw, hv]
      simp
    · rw [boundArg_other c arg hw] at hab
      simp only [collectArgs, if_neg hw, hab]
      rw [ih _ rfl, binderQueries_cons_other arg rest hw]
      simp

theorem collected_of_bound (c : Controller) (vs : List Value)
    (h : List.Forall₂ (fun p v => boundArg c p = Except.ok v) c.MethodType.Args vs) :
    collected c = ⟨vs, binderQueries c.MethodType.Args, none⟩ := by
  have := collectArgs_of_bound c c.MethodType.Args vs h ⟨[], [], none⟩ rfl
  simpa [collected] using this

theorem mem_binderQueries {args : List MethodArg} {q : String × GoType}
    (h : q ∈ binderQueries args) : q.2 ≠ websocketType := by
  simp only [binderQueries, List.mem_map, List.mem_filter] at h
  obtain ⟨a, ⟨_, ha⟩, rfl⟩ := h
  simpa using ha

/-- What `Call` reports of the loop: nothing for a nil handler, the state in which the
loop ended otherwise; a reflective call is made only after a loop without panic. -/
theorem Call_loop {F : Type} (implements : GoType → GoType → Bool) (c : Controller)
    (fc : F) :
    ((Call implements c fc).asked = [] ∧ (Call implements c fc).methodArgs = [] ∧
        (Call implements c fc).invocations = []) ∨
      ((Call implements c fc).asked = (collected c).asked ∧
        (Call implements c fc).methodArgs = (collected c).methodArgs ∧
        ((Call implements c fc).invocations = [] ∨
          ((collected c).panic = none ∧
            ∃ isSlice, (Call implements c fc).invocations =
              [⟨isSlice, (collected c).methodArgs⟩]))) := by
  rcases Call_cases implements c fc with ⟨_, h⟩ | ⟨_, _, _, _, h⟩ | ⟨_, _, _, _, h⟩ |
    ⟨_, m, _, _, hp, _, _, _, h⟩ | ⟨_, m, _, _, _, hp, _, _, _, _, h⟩ |
    ⟨_, m, _, _, _, hp, _, _, _, _, h⟩ <;> rw [h]
  · exact Or.inl ⟨rfl, rfl, rfl⟩
  · exact Or.inr ⟨rfl, rfl, Or.inl rfl⟩
  · exact Or.inr ⟨rfl, rfl, Or.inl rfl⟩
  · exact Or.inr ⟨rfl, rfl, Or.inr ⟨hp, _, rfl⟩⟩
  · exact Or.inr ⟨rfl, rfl, Or.inr ⟨hp, _, rfl⟩⟩
  · exact Or.inr ⟨rfl, rfl, Or.inr ⟨hp, _, rfl⟩⟩

/-! ## Further facts about an execution -/

theorem MethodByName_some {app : Option Instance} {name : String} {m : Method}
    (h : MethodByName app name = Except.ok (some m)) :
    ∃ inst, app = some inst ∧ inst.methods.lookup name = some m := by
  cases app with
  | none => simp [MethodByName] at h
  | some inst => exact ⟨inst, rfl, by simpa [MethodByName] using h⟩

theorem append_singleton_inj {α : Type} {xs ys : List α} {a b : α}
    (h : xs ++ [a] = ys ++ [b]) : xs = ys ∧ a = b := by
  obtain ⟨h1, h2⟩ := List.append_inj' h rfl
  exact ⟨h1, by simpa using h2⟩

theorem forall₂_append_singleton {α β : Type} {R : α → β → Prop} {xs : List α}
    {ys : List β} {a : α} {b : β} (h : List.Forall₂ R (xs ++ [a]) (ys ++ [b])) : R a b := by
  have h2 := List.forall₂_reverse_iff.mpr h
  simp only [List.reverse_append, List.reverse_cons, List.reverse_nil, List.nil_append,
    List.singleton_append] at h2
  exact (List.forall₂_cons.mp h2).1

/-- When the reflective call returns, the rest of `Call` is the capture of its
results, and the method body has been entered once. -/
theorem Call_of_returned {F : Type} (implements : GoType → GoType → Bool) (c : Controller)
    (fc : F) (results : List Value) (h : (Call implements c fc).returned = [results]) :
    (Call implements c fc).c = (captureResult implements c results).1 ∧
      (Call implements c fc).writes = (captureResult implements c results).2.1 ∧
      (Call implements c fc).panic = (captureResult implements c results).2.2 ∧
      ∃ actual, (Call implements c fc).runs = [actual] := by
  rcases Call_cases implements c fc with ⟨_, h0⟩ | ⟨_, _, _, _, h0⟩ | ⟨_, _, _, _, h0⟩ |
    ⟨_, _, _, _, _, _, _, _, h0⟩ | ⟨_, _, _, _, _, _, _, _, _, _, h0⟩ |
    ⟨_, _, actual, results2, _, _, _, _, _, _, h0⟩ <;> rw [h0] at h ⊢
  · cases h
  · cases h
  · cases h
  · cases h
  · cases h
  · have hr : results2 = results := by simpa using h
    subst hr
    exact ⟨rfl, rfl, rfl, actual, rfl⟩

/-- The method body is entered only through a reflective call that accepted the
collected arguments. -/
theorem Call_runs {F : Type} (implements : GoType → GoType → Bool) (c : Controller)
    (fc : F) (m : Method)
    (hm : MethodByName c.AppController c.MethodType.Name = Except.ok (some m)) :
    (Call implements c fc).runs = [] ∨
      ∃ actual, (Call implements c fc).runs = [actual] ∧
        (Call implements c fc).methodArgs = (collected c).methodArgs ∧
        (Call implements c fc).invocations = [⟨m.typ.IsVariadic, (collected c).methodArgs⟩] ∧
        (collected c).panic = none ∧
        List.Forall₂ (assignableValue implements) (collected c).methodArgs m.typ.ins ∧
        entersWith m (collected c).methodArgs actual := by
  obtain ⟨inst, hinst, hlook⟩ := MethodByName_some hm
  rcases Call_cases implements c fc with ⟨_, h0⟩ | ⟨_, _, _, _, h0⟩ | ⟨_, _, _, _, h0⟩ |
    ⟨_, _, _, _, _, _, _, _, h0⟩ | ⟨i2, m2, actual, _, hi2, hp, hl2, hacc, hent, _, h0⟩ |
    ⟨i2, m2, actual, _, hi2, hp, hl2, hacc, hent, _, h0⟩
  · exact Or.inl (by rw [h0])
  · exact Or.inl (by rw [h0])
  · exact Or.inl (by rw [h0])
  · exact Or.inl (by rw [h0])
  · have hi : i2 = inst := by rw [hinst] at hi2; exact (Option.some.inj hi2).symm
    subst hi
    have hmm : m2 = m := by rw [hlook] at hl2; exact (Option.some.inj hl2).symm
    subst hmm
    exact Or.inr ⟨actual, by rw [h0], by rw [h0], by rw [h0], hp, hacc, hent⟩
  · have hi : i2 = inst := by rw [hinst] at hi2; exact (Option.some.inj hi2).symm
    subst hi
    have hmm : m2 = m := by rw [hlook] at hl2; exact (Option.some.inj hl2).symm
    subst hmm
    exact Or.inr ⟨actual, by rw [h0], by rw [h0], by rw [h0], hp, hacc, hent⟩

/-- Bound values that the parameter types of the method accept reach its body. -/
theorem Call_enters {F : Type} (implements : GoType → GoType → Bool) (c : Controller)
    (fc : F) (m : Method) (args : List Value)
    (hm : MethodByName c.AppController c.MethodType.Name = Except.ok (some m))
    (hb : List.Forall₂ (fun p v => boundArg c p = Except.ok v) c.MethodType.Args args)
    (ha : List.Forall₂ (assignableValue implements) args m.typ.ins) :
    (Call implements c fc).invocations = [⟨m.typ.IsVariadic, args⟩] ∧
      ∃ actual, (Call implements c fc).runs = [actual] ∧ entersWith m args actual := by
  obtain ⟨inst, hinst, hlook⟩ := MethodByName_some hm
  have hcol := collected_of_bound c args hb
  rcases Call_cases implements c fc with ⟨hn, _⟩ | ⟨_, _, _, hp, _⟩ | ⟨i2, hi2, _, hl2, _⟩ |
    ⟨i2, m2, _, hi2, _, hl2, hrej, _, _⟩ | ⟨i2, m2, actual, _, hi2, _, hl2, _, hent, _, h0⟩ |
    ⟨i2, m2, actual, _, hi2, _, hl2, _, hent, _, h0⟩
  · rw [hinst] at hn; cases hn
  · rw [hcol] at hp; cases hp
  · have hi : i2 = inst := by rw [hinst] at hi2; exact (Option.some.inj hi2).symm
    subst hi
    rw [hlook] at hl2; cases hl2
  · have hi : i2 = inst := by rw [hinst] at hi2; exact (Option.some.inj hi2).symm
    subst hi
    have hmm : m2 = m := by rw [hlook] at hl2; exact (Option.some.inj hl2).symm
    subst hmm
    rw [hcol] at hrej
    exact absurd ha hrej
  · have hi : i2 = inst := by rw [hinst] at hi2; exact (Option.some.inj hi2).symm
    subst hi
    have hmm : m2 = m := by rw [hlook] at hl2; exact (Option.some.inj hl2).symm
    subst hmm
    rw [hcol] at hent h0
    exact ⟨by rw [h0], actual, by rw [h0], hent⟩
  · have hi : i2 = inst := by rw [hinst] at hi2; exact (Option.some.inj hi2).symm
    subst hi
    have hmm : m2 = m := by rw [hlook] at hl2; exact (Option.some.inj hl2).symm
    subst hmm
    rw [hcol] at hent h0
    exact ⟨by rw [h0], actual, by rw [h0], hent⟩

/-- Every consultation of the binder before a panic-free end of the loop returned a
value; a loop ended by a panic was ended by its last consultation of the binder. -/
theorem collected_failure (c : Controller) :
    ((collected c).panic = none →
        ∀ q ∈ (collected c).asked, ∃ v, c.Params.Bind q.1 q.2 = Except.ok v) ∧
      (∀ e, (collected c).panic = some e →
        ∃ front q, (collected c).asked = front ++ [q] ∧
          c.Params.Bind q.1 q.2 = Except.error e ∧
          ∀ r ∈ front, ∃ v, c.Params.Bind r.1 r.2 = Except.ok v) :=
  collectArgs_failure c c.MethodType.Args ⟨[], [], none⟩ rfl (by simp)

/-- A consultation of the binder that panics ends the loop with that panic. -/
theorem collected_panic_of_asked (c : Controller) (q : String × GoType) (e : Panic)
    (hq : q ∈ (collected c).asked) (he : c.Params.Bind q.1 q.2 = Except.error e) :
    (collected c).panic = some e := by
  obtain ⟨hok, hfail⟩ := collected_failure c
  cases hp : (collected c).panic with
  | none =>
    obtain ⟨v, hv⟩ := hok hp q hq
    rw [he] at hv; cases hv
  | some p =>
    obtain ⟨front, q2, hsplit, hq2, hfront⟩ := hfail p hp
    rw [hsplit] at hq
    rcases List.mem_append.mp hq with hq | hq
    · obtain ⟨v, hv⟩ := hfront q hq
      rw [he] at hv; cases hv
    · have hqq : q = q2 := by simpa using hq
      subst hqq
      rw [he] at hq2
      injection hq2 with hq2
      rw [hq2]

/-- The method body is entered at most once, after a loop without panic, with the
arguments that `reflect` makes of the collected ones. -/
theorem Call_runs_cases {F : Type} (implements : GoType → GoType → Bool) (c : Controller)
    (fc : F) :
    (Call implements c fc).runs = [] ∨
      ∃ m actual, (Call implements c fc).runs = [actual] ∧ (collected c).panic = none ∧
        entersWith m (collected c).methodArgs actual := by
  rcases Call_cases implements c fc with ⟨_, h⟩ | ⟨_, _, _, _, h⟩ | ⟨_, _, _, _, h⟩ |
    ⟨_, _, _, _, _, _, _, _, h⟩ | ⟨_, m, actual, _, _, hp, _, _, hent, _, h⟩ |
    ⟨_, m, actual, _, _, hp, _, _, hent, _, h⟩
  · exact Or.inl (by rw [h])
  · exact Or.inl (by rw [h])
  · exact Or.inl (by rw [h])
  · exact Or.inl (by rw [h])
  · exact Or.inr ⟨m, actual, by rw [h], hp, hent⟩
  · exact Or.inr ⟨m, actual, by rw [h], hp, hent⟩

/-- A pointer among the collected arguments reaches the method body at its position:
spreading the final slice moves no argument before it, and the final slice itself is
no pointer. -/
theorem entersWith_pointer {m : Method} {args actual : List Value} {i : Nat}
    {elem : String} {addr : Option Nat} (h : entersWith m args actual)
    (hi : args[i]? = some (Value.ptr elem addr)) :
    actual[i]? = some (Value.ptr elem addr) := by
  rcases h with ⟨_, rfl⟩ | ⟨_, e, init, xs, _, hsplit, rfl⟩
  · exact hi
  · rw [hsplit] at hi
    rcases Nat.lt_trichotomy i init.length with hlt | heq | hgt
    · rw [List.getElem?_append_left hlt] at hi ⊢
      exact hi
    · subst heq
      simp at hi
    · have hnone : (init ++ [Value.slice e xs])[i]? = none :=
        List.getElem?_eq_none (by simp; omega)
      rw [hnone] at hi
      cases hi

/-! ## Properties of `actionInvoker.Call` -/

/-- C1: the argument list that `Call` passes to the resolved method has exactly one
entry per declared parameter, and the entry at position `i` is the value bound for the
`i`-th declared parameter (the binder's value for its name and type, or the request's
connection when its type is the connection type). -/
theorem Call_binds_one_value_per_parameter {F : Type}
    (implements : GoType → GoType → Bool) (c : Controller) (fc : F) (inv : Invocation)
    (h : inv ∈ (Call implements c fc).invocations) :
    inv.args.length = c.MethodType.Args.length ∧
      ∀ (i : Nat) (p : MethodArg), c.MethodType.Args[i]? = some p →
        ∃ v, inv.args[i]? = some v ∧ boundArg c p = Except.ok v := by
  rcases Call_loop implements c fc with ⟨_, _, h0⟩ | ⟨_, _, h0 | ⟨hp, isSlice, h1⟩⟩
  · rw [h0] at h; cases h
  · rw [h0] at h; cases h
  · rw [h1] at h
    have hinv : inv = ⟨isSlice, (collected c).methodArgs⟩ := by simpa using h
    subst hinv
    obtain ⟨hall, _⟩ := collected_complete c hp
    exact ⟨hall.length_eq.symm, forall₂_index hall⟩

/-- The scenario of C1: `Greet(name string, times int)` with a binder returning `"Ada"`
and `3` is called as `Greet("Ada", 3)`. -/
theorem Call_binds_one_value_per_parameter_witness :
    (Call scenarioImplements greet ()).runs = [[Value.string "Ada", Value.int 3]] ∧
      (Call scenarioImplements greet ()).panic = none ∧
      ([Value.string "Ada", Value.int 3].length = greet.MethodType.Args.length ∧
        ∀ (i : Nat) (p : MethodArg), greet.MethodType.Args[i]? = some p →
          ∃ v, [Value.string "Ada", Value.int 3][i]? = some v ∧
            boundArg greet p = Except.ok v) :=
  ⟨rfl, rfl,
    Call_binds_one_value_per_parameter scenarioImplements greet ()
      ⟨false, [Value.string "Ada", Value.int 3]⟩ (List.Mem.head _)⟩

/-- C2: a declared parameter whose type is the connection type is bound to the
request's connection handle itself, the pointer `c.Request.Websocket` (nil when the
request carries none), at any position and whatever the binder is, and the binder is
never asked for it: every pair the binder is asked for has another type, the pairs it
is asked for are an initial segment of the non-connection parameters in declared
order, and they are all of them once the loop has run to the reflective call.  The
handle stands at the parameter's position in the collected arguments, in the argument
list of the reflective call, and in the arguments the method body receives. -/
theorem Call_connection_bypasses_binder {F : Type}
    (implements : GoType → GoType → Bool) (c : Controller) (fc : F) :
    (∀ q ∈ (Call implements c fc).asked, q.2 ≠ websocketType) ∧
      (∃ k, (Call implements c fc).asked = (binderQueries c.MethodType.Args).take k) ∧
      (∀ (i : Nat) (p : MethodArg) (v : Value), c.MethodType.Args[i]? = some p →
        p.Typ = websocketType → (Call implements c fc).methodArgs[i]? = some v →
        v = Value.ptr "websocket.Conn" c.Request.Websocket) ∧
      (∀ inv ∈ (Call implements c fc).invocations,
        (Call implements c fc).asked = binderQueries c.MethodType.Args ∧
        ∀ (i : Nat) (p : MethodArg), c.MethodType.Args[i]? = some p →
          p.Typ = websocketType →
          inv.args[i]? = some (Value.ptr "websocket.Conn" c.Request.Websocket)) ∧
      (∀ actual ∈ (Call implements c fc).runs,
        ∀ (i : Nat) (p : MethodArg), c.MethodType.Args[i]? = some p →
          p.Typ = websocketType →
          actual[i]? = some (Value.ptr "websocket.Conn" c.Request.Websocket)) := by
  have hseg : ∃ k, (Call implements c fc).asked = (binderQueries c.MethodType.Args).take k := by
    rcases Call_loop implements c fc with ⟨h0, _, _⟩ | ⟨h0, _, _⟩
    · exact ⟨0, by simp [h0]⟩
    · rw [h0]; exact collected_asked c
  have hbound : ∀ p : MethodArg, p.Typ = websocketType →
      boundArg c p = Except.ok (Value.ptr "websocket.Conn" c.Request.Websocket) :=
    fun p hw => boundArg_websocket c p hw
  have hfull : (collected c).panic = none →
      ∀ (i : Nat) (p : MethodArg), c.MethodType.Args[i]? = some p → p.Typ = websocketType →
        (collected c).methodArgs[i]? =
          some (Value.ptr "websocket.Conn" c.Request.Websocket) := by
    intro hp i p hpi hw
    obtain ⟨hall, _⟩ := collected_complete c hp
    obtain ⟨v, hv, hb⟩ := forall₂_index hall i p hpi
    rw [hbound p hw] at hb
    have : Value.ptr "websocket.Conn" c.Request.Websocket = v := by simpa using hb
    rw [this]; exact hv
  refine ⟨?_, hseg, ?_, ?_, ?_⟩
  · obtain ⟨k, hk⟩ := hseg
    intro q hq
    rw [hk] at hq
    exact mem_binderQueries (List.mem_of_mem_take hq)
  · intro i p v hp hw hv
    rcases Call_loop implements c fc with ⟨_, h0, _⟩ | ⟨_, h0, _⟩
    · rw [h0] at hv; simp at hv
    · rw [h0] at hv
      have := forall₂_take_index (collected_methodArgs c) i p v hp hv
      rw [hbound p hw] at this
      simpa using this.symm
  · intro inv hinv
    rcases Call_loop implements c fc with ⟨_, _, h0⟩ | ⟨ha, _, h0 | ⟨hp, isSlice, h1⟩⟩
    · rw [h0] at hinv; cases hinv
    · rw [h0] at hinv; cases hinv
    · rw [h1] at hinv
      have hi : inv = ⟨isSlice, (collected c).methodArgs⟩ := by simpa using hinv
      subst hi
      obtain ⟨_, hasked⟩ := collected_complete c hp
      exact ⟨ha.trans hasked, hfull hp⟩
  · intro actual hact i p hpi hw
    rcases Call_runs_cases implements c fc with h0 | ⟨m, a, h0, hp, hent⟩
    · rw [h0] at hact; cases hact
    · rw [h0] at hact
      have hact2 : actual = a := by simpa using hact
      subst hact2
      exact entersWith_pointer hent (hfull hp i p hpi hw)

/-- The scenario of C2: `Stream(conn *websocket.Conn)` on a request carrying the
connection `7` is called as `Stream(7)`, under a binder that panics when it is
consulted; and `Chat(name, conn, times)` is called as `Chat("Ada", 7, 3)`, the binder
having been asked for `name` and `times` only. -/
theorem Call_connection_bypasses_binder_witness :
    (Call scenarioImplements stream ()).asked = [] ∧
      (Call scenarioImplements stream ()).runs = [[Value.ptr "websocket.Conn" (some 7)]] ∧
      (Call scenarioImplements stream ()).panic = none ∧
      (Call scenarioImplements chat ()).asked =
        [("name", GoType.string), ("times", GoType.int)] ∧
      (Call scenarioImplements chat ()).runs =
        [[Value.string "Ada", Value.ptr "websocket.Conn" (some 7), Value.int 3]] ∧
      (∀ actual ∈ (Call scenarioImplements stream ()).runs,
        actual[0]? = some (Value.ptr "websocket.Conn" (some 7))) ∧
      (∀ actual ∈ (Call scenarioImplements chat ()).runs,
        actual[1]? = some (Value.ptr "websocket.Conn" (some 7))) :=
  ⟨rfl, rfl, rfl, rfl, rfl,
    fun actual h =>
      (Call_connection_bypasses_binder scenarioImplements stream ()).2.2.2.2 actual h 0
        ⟨"conn", websocketType⟩ rfl rfl,
    fun actual h =>
      (Call_connection_bypasses_binder scenarioImplements chat ()).2.2.2.2 actual h 1
        ⟨"conn", websocketType⟩ rfl rfl⟩

/-- C9: `Call` leaves the method descriptor, the handler instance, the request with its
connection and the binder of the controller as they were, and its outcome does not
depend on the continuation it is given. -/
theorem Call_frame {F G : Type} (implements : GoType → GoType → Bool) (c : Controller)
    (fc : F) (gc : G) :
    (Call implements c fc).c.MethodType = c.MethodType ∧
      (Call implements c fc).c.AppController = c.AppController ∧
      (Call implements c fc).c.Request = c.Request ∧
      (Call implements c fc).c.Params = c.Params ∧
      Call implements c fc = Call implements c gc := by
  refine ⟨?_, ?_, ?_, ?_, rfl⟩ <;>
  · rcases Call_cases implements c fc with ⟨_, h⟩ | ⟨_, _, _, _, h⟩ | ⟨_, _, _, _, h⟩ |
      ⟨_, _, _, _, _, _, _, _, h⟩ | ⟨_, _, _, _, _, _, _, _, _, _, h⟩ |
      ⟨_, _, _, results, _, _, _, _, _, _, h⟩ <;> rw [h]
    rcases captureResult_frame implements c results with ⟨h1, _⟩ | ⟨d, h1, _⟩ <;>
      simp only [h1]

/-- C3: on a variadic method `Call` spreads the last collected value: whenever the
method body is entered, the collected values are some `init` followed by a slice, and
the body receives `init` followed by the elements of that slice one by one; on a
method that is not variadic the body receives the collected values as they are.  The
body is entered whenever every declared parameter has a bound value and the parameter
types of the method accept those values. -/
theorem Call_spreads_variadic_tail {F : Type} (implements : GoType → GoType → Bool)
    (c : Controller) (fc : F) (m : Method)
    (hm : MethodByName c.AppController c.MethodType.Name = Except.ok (some m)) :
    (m.typ.IsVariadic = true → ∀ actual ∈ (Call implements c fc).runs,
        ∃ init e xs, (Call implements c fc).methodArgs = init ++ [Value.slice e xs] ∧
          actual = init ++ xs) ∧
      (m.typ.IsVariadic = false → ∀ actual ∈ (Call implements c fc).runs,
        actual = (Call implements c fc).methodArgs) ∧
      (∀ init e xs, m.typ.IsVariadic = true →
        List.Forall₂ (fun p v => boundArg c p = Except.ok v) c.MethodType.Args
          (init ++ [Value.slice e xs]) →
        List.Forall₂ (assignableValue implements) (init ++ [Value.slice e xs]) m.typ.ins →
        (Call implements c fc).invocations = [⟨true, init ++ [Value.slice e xs]⟩] ∧
          (Call implements c fc).runs = [init ++ xs]) ∧
      (∀ args, m.typ.IsVariadic = false →
        List.Forall₂ (fun p v => boundArg c p = Except.ok v) c.MethodType.Args args →
        List.Forall₂ (assignableValue implements) args m.typ.ins →
        (Call implements c fc).invocations = [⟨false, args⟩] ∧
          (Call implements c fc).runs = [args]) := by
  refine ⟨?_, ?_, ?_, ?_⟩
  · intro hv actual hact
    rcases Call_runs implements c fc m hm with h0 | ⟨a, h0, hargs, _, _, _, hent⟩
    · rw [h0] at hact; cases hact
    · rw [h0] at hact
      have : actual = a := by simpa using hact
      subst this
      rcases hent with ⟨hf, _⟩ | ⟨_, e, init, xs, _, hsplit, hact2⟩
      · rw [hv] at hf; cases hf
      · exact ⟨init, e, xs, hargs.trans hsplit, hact2⟩
  · intro hv actual hact
    rcases Call_runs implements c fc m hm with h0 | ⟨a, h0, hargs, _, _, _, hent⟩
    · rw [h0] at hact; cases hact
    · rw [h0] at hact
      have : actual = a := by simpa using hact
      subst this
      rcases hent with ⟨_, hact2⟩ | ⟨ht, _⟩
      · rw [hargs]; exact hact2
      · rw [hv] at ht; cases ht
  · intro init e xs hv hb ha
    obtain ⟨hinv, actual, hruns, hent⟩ := Call_enters implements c fc m _ hm hb ha
    rw [hv] at hinv
    refine ⟨hinv, ?_⟩
    rcases hent with ⟨hf, _⟩ | ⟨_, e2, init2, xs2, _, hsplit, hact2⟩
    · rw [hv] at hf; cases hf
    · obtain ⟨hi, hs⟩ := append_singleton_inj hsplit
      have hx : xs = xs2 := by
        injection hs
      rw [hruns, hact2, hi, hx]
  · intro args hv hb ha
    obtain ⟨hinv, actual, hruns, hent⟩ := Call_enters implements c fc m _ hm hb ha
    rw [hv] at hinv
    refine ⟨hinv, ?_⟩
    rcases hent with ⟨_, hact2⟩ | ⟨ht, _⟩
    · rw [hruns, hact2]
    · rw [hv] at ht; cases ht

/-- The scenario of C3: `LogAll(tags ...string)` with the bound value `["a","b","c"]` is
called as `LogAll("a", "b", "c")`. -/
theorem Call_spreads_variadic_tail_witness :
    (Call scenarioImplements logAll ()).invocations =
        [⟨true, [Value.slice GoType.string
          [Value.string "a", Value.string "b", Value.string "c"]]⟩] ∧
      (Call scenarioImplements logAll ()).runs =
        [[Value.string "a", Value.string "b", Value.string "c"]] :=
  (Call_spreads_variadic_tail scenarioImplements logAll ()
      ⟨⟨[], some GoType.string⟩, fun _ => Except.ok [Value.iface "revel.Result" none]⟩
      rfl).2.2.1 [] GoType.string [Value.string "a", Value.string "b", Value.string "c"] rfl
    (List.Forall₂.cons rfl List.Forall₂.nil)
    (List.Forall₂.cons ⟨GoType.slice GoType.string, rfl, rfl⟩ List.Forall₂.nil)

/-- C4, as stated, fails: a method whose declared result type is the concrete type
`*revel.RenderTextResult` returns a non-nil value that satisfies `Result`, and
`c.Result` is not set to it. -/
theorem Call_concrete_result_not_captured :
    ¬ ∀ (implements : GoType → GoType → Bool) (c : Controller) (v d : Value)
        (rest : List Value),
        (Call implements c ()).returned = [v :: rest] →
        v.Interface = Except.ok (some d) →
        satisfiesResult implements d = true → (Call implements c ()).c.Result = some d := by
  intro h
  have h1 := h scenarioImplements showConcrete renderText renderText [] rfl rfl rfl
  have h2 : (Call scenarioImplements showConcrete ()).c.Result = none := rfl
  rw [h2] at h1
  cases h1

/-- C4, amended: when the first return value comes back through a result declared with
an interface type (`Result` or any other), is non-nil and its dynamic value satisfies
`Result`, then `c.Result` is that value after `Call`, written once, and `Call` returns
normally. -/
theorem Call_captures_interface_result {F : Type} (implements : GoType → GoType → Bool)
    (c : Controller) (fc : F) (name : String) (d : Value) (rest : List Value)
    (hret : (Call implements c fc).returned = [Value.iface name (some d) :: rest])
    (hsat : satisfiesResult implements d = true) :
    (Call implements c fc).c.Result = some d ∧ (Call implements c fc).writes = [d] ∧
      (Call implements c fc).panic = none := by
  obtain ⟨h1, h2, h3, _⟩ := Call_of_returned implements c fc _ hret
  rw [h1, h2, h3, captureResult_satisfying implements c name d rest hsat]
  exact ⟨rfl, rfl, rfl⟩

/-- A run of the amended C4: `Show() revel.Result` returning a `*RenderTextResult`. -/
theorem Call_captures_interface_result_witness :
    (Call scenarioImplements showInterface ()).c.Result = some renderText ∧
      (Call scenarioImplements showInterface ()).writes = [renderText] ∧
      (Call scenarioImplements showInterface ()).panic = none :=
  Call_captures_interface_result scenarioImplements showInterface () "revel.Result"
    renderText [] rfl rfl

/-- C5, as stated, fails: a method declared to return `interface{}` returns a string,
which does not satisfy `Result`, and `Call` does not complete normally. -/
theorem Call_panics_on_string_in_interface :
    ¬ ∀ (implements : GoType → GoType → Bool) (c : Controller) (v : Value)
        (rest : List Value),
        (Call implements c ()).returned = [v :: rest] →
        (∀ d, v.Interface = Except.ok (some d) → satisfiesResult implements d = false) →
        (Call implements c ()).panic = none ∧ (Call implements c ()).c.Result = c.Result := by
  intro h
  have h1 := h scenarioImplements stringInInterface
    (Value.iface "interface {}" (some (Value.string "hello"))) [] rfl
    (by
      intro d hd
      have : Value.string "hello" = d := by simpa [Value.Interface] using hd
      subst this
      rfl)
  have h2 : (Call scenarioImplements stringInInterface ()).panic =
      some Panic.typeAssertion := rfl
  rw [h2] at h1
  cases h1.1

/-- C5, amended: a first return value of a kind other than `Interface` (a plain string,
a value of any concrete declared type) or a nil interface is ignored: `Call` returns
normally and `c.Result` keeps its value.  A non-nil value in a result declared with an
interface type whose dynamic value does not satisfy `Result` is not ignored: the
assertion to `Result` panics, with `c.Result` as it was. -/
theorem Call_ignores_uncaptured_result {F : Type} (implements : GoType → GoType → Bool)
    (c : Controller) (fc : F) (v : Value) (rest : List Value)
    (hret : (Call implements c fc).returned = [v :: rest]) :
    ((v.Kind ≠ Kind.Interface ∨ ∃ name, v = Value.iface name none) →
        (Call implements c fc).panic = none ∧ (Call implements c fc).c.Result = c.Result ∧
          (Call implements c fc).writes = []) ∧
      (∀ name d, v = Value.iface name (some d) → satisfiesResult implements d = false →
        (Call implements c fc).panic = some Panic.typeAssertion ∧
          (Call implements c fc).c.Result = c.Result ∧
          (Call implements c fc).writes = []) := by
  obtain ⟨h1, h2, h3, _⟩ := Call_of_returned implements c fc _ hret
  refine ⟨?_, ?_⟩
  · rintro (hk | ⟨name, rfl⟩)
    · rw [h1, h2, h3, captureResult_concrete implements c v rest hk]
      exact ⟨rfl, rfl, rfl⟩
    · rw [h1, h2, h3, captureResult_nil_interface]
      exact ⟨rfl, rfl, rfl⟩
  · rintro name d rfl hsat
    rw [h1, h2, h3, captureResult_unsatisfying implements c name d rest hsat]
    exact ⟨rfl, rfl, rfl⟩

/-- The scenario of C5: a method returning a plain string leaves `c.Result` as it
was. -/
theorem Call_ignores_uncaptured_result_witness :
    (Call scenarioImplements plainString ()).panic = none ∧
      (Call scenarioImplements plainString ()).c.Result = plainString.Result ∧
      (Call scenarioImplements plainString ()).writes = [] :=
  (Call_ignores_uncaptured_result scenarioImplements plainString () (Value.string "hello")
    [] rfl).1 (Or.inl (by decide))

/-- C6: a consultation of the binder that fails ends `Call` with that same panic, with
no reflective call made, the method body never entered and `c.Result` as it was; and
on a handler that is not nil, a declared non-connection parameter for which the binder
fails does make a consultation fail. -/
theorem Call_propagates_binder_panic {F : Type} (implements : GoType → GoType → Bool)
    (c : Controller) (fc : F) :
    (∀ (q : String × GoType) (e : Panic), q ∈ (Call implements c fc).asked →
        c.Params.Bind q.1 q.2 = Except.error e →
        (Call implements c fc).panic = some e ∧ (Call implements c fc).invocations = [] ∧
          (Call implements c fc).runs = [] ∧ (Call implements c fc).writes = [] ∧
          (Call implements c fc).c.Result = c.Result) ∧
      (∀ p ∈ c.MethodType.Args, p.Typ ≠ websocketType →
        (∃ e, c.Params.Bind p.Name p.Typ = Except.error e) → c.AppController ≠ none →
        ∃ q e, q ∈ (Call implements c fc).asked ∧ c.Params.Bind q.1 q.2 = Except.error e ∧
          (Call implements c fc).panic = some e) := by
  refine ⟨?_, ?_⟩
  · intro q e hq he
    rcases Call_cases implements c fc with ⟨_, h⟩ | ⟨_, p, _, hp, h⟩ | ⟨_, _, hp, _, h⟩ |
      ⟨_, _, _, _, hp, _, _, _, h⟩ | ⟨_, _, _, _, _, hp, _, _, _, _, h⟩ |
      ⟨_, _, _, _, _, hp, _, _, _, _, h⟩ <;> rw [h] at hq ⊢
    · cases hq
    · have := collected_panic_of_asked c q e hq he
      rw [hp] at this
      exact ⟨this, rfl, rfl, rfl, rfl⟩
    all_goals
      have := collected_panic_of_asked c q e hq he
      rw [hp] at this
      cases this
  · intro p hmem hw ⟨e0, he0⟩ hnil
    have hpanic : (collected c).panic ≠ none := by
      intro hp
      obtain ⟨_, hasked⟩ := collected_complete c hp
      have hq : (p.Name, p.Typ) ∈ (collected c).asked := by
        rw [hasked]
        simp only [binderQueries, List.mem_map, List.mem_filter]
        exact ⟨p, ⟨hmem, by simpa using hw⟩, rfl⟩
      obtain ⟨v, hv⟩ := (collected_failure c).1 hp _ hq
      rw [he0] at hv; cases hv
    rcases Call_cases implements c fc with ⟨hn, _⟩ | ⟨_, e, _, hp, h⟩ | ⟨_, _, hp, _, _⟩ |
      ⟨_, _, _, _, hp, _, _, _, _⟩ | ⟨_, _, _, _, _, hp, _, _, _, _, _⟩ |
      ⟨_, _, _, _, _, hp, _, _, _, _, _⟩
    · exact absurd hn hnil
    · obtain ⟨front, q, hsplit, hq, _⟩ := (collected_failure c).2 e hp
      exact ⟨q, e, by rw [h]; simp [hsplit], hq, by rw [h]⟩
    all_goals exact absurd hp hpanic

/-- A run of C6: the binder fails for the second of three declared parameters; `Call`
panics with the binder's panic before any call of `Greet`. -/
theorem Call_propagates_binder_panic_witness :
    (Call scenarioImplements greetUnbound ()).asked =
        [("name", GoType.string), ("missing", GoType.int)] ∧
      ((Call scenarioImplements greetUnbound ()).panic =
          some (Panic.raised "no such parameter") ∧
        (Call scenarioImplements greetUnbound ()).invocations = [] ∧
        (Call scenarioImplements greetUnbound ()).runs = [] ∧
        (Call scenarioImplements greetUnbound ()).writes = [] ∧
        (Call scenarioImplements greetUnbound ()).c.Result = greetUnbound.Result) :=
  ⟨rfl,
    (Call_propagates_binder_panic scenarioImplements greetUnbound ()).1
      ("missing", GoType.int) (Panic.raised "no such parameter")
      (List.Mem.tail _ (List.Mem.head _)) rfl⟩

/-- C7: each dispatch error is fatal, with the method body never entered and `c.Result`
as it was: (i) no method of the descriptor's name on the handler, (ii) a number of
collected arguments other than the arity of the method, (iii) a variadic method and a
final collected value whose type is not a slice type.  The panic that ends `Call` is
one of the dispatch panics of `reflect`, unless the binder panicked first. -/
theorem Call_dispatch_errors_are_fatal {F : Type} (implements : GoType → GoType → Bool)
    (c : Controller) (fc : F) :
    ((∀ m, MethodByName c.AppController c.MethodType.Name ≠ Except.ok (some m)) →
        endsFatally c (Call implements c fc)) ∧
      (∀ m, MethodByName c.AppController c.MethodType.Name = Except.ok (some m) →
        (Call implements c fc).methodArgs.length ≠ m.typ.NumIn →
        endsFatally c (Call implements c fc)) ∧
      (∀ m init v, MethodByName c.AppController c.MethodType.Name = Except.ok (some m) →
        m.typ.IsVariadic = true → (Call implements c fc).methodArgs = init ++ [v] →
        (∀ e, v.Typ ≠ Except.ok (GoType.slice e)) →
        endsFatally c (Call implements c fc)) := by
  have hbind : ∀ p, (collected c).panic = some p →
      ∃ q ∈ (collected c).asked, c.Params.Bind q.1 q.2 = Except.error p := by
    intro p hp
    obtain ⟨front, q, hsplit, hq, _⟩ := (collected_failure c).2 p hp
    exact ⟨q, by simp [hsplit], hq⟩
  have hentered : ∀ m, MethodByName c.AppController c.MethodType.Name = Except.ok (some m) →
      ¬ List.Forall₂ (assignableValue implements) (Call implements c fc).methodArgs
        m.typ.ins → endsFatally c (Call implements c fc) := by
    intro m hm hrej
    obtain ⟨inst, hinst, hlook⟩ := MethodByName_some hm
    rcases Call_cases implements c fc with ⟨hn, _⟩ | ⟨_, p, _, hp, h⟩ | ⟨i2, hi2, _, hl2, _⟩ |
      ⟨_, _, p, _, _, _, _, hdis, h⟩ | ⟨i2, m2, _, _, hi2, _, hl2, hacc, _, _, h⟩ |
      ⟨i2, m2, _, _, hi2, _, hl2, hacc, _, _, h⟩
    · rw [hinst] at hn; cases hn
    · rw [h]; exact ⟨rfl, rfl, rfl, rfl, p, rfl, Or.inr (hbind p hp)⟩
    · have hi : i2 = inst := by rw [hinst] at hi2; exact (Option.some.inj hi2).symm
      subst hi
      rw [hlook] at hl2; cases hl2
    · rw [h]; exact ⟨rfl, rfl, rfl, rfl, p, rfl, Or.inl hdis⟩
    · have hi : i2 = inst := by rw [hinst] at hi2; exact (Option.some.inj hi2).symm
      subst hi
      have hmm : m2 = m := by rw [hlook] at hl2; exact (Option.some.inj hl2).symm
      subst hmm
      rw [h] at hrej
      exact absurd hacc hrej
    · have hi : i2 = inst := by rw [hinst] at hi2; exact (Option.some.inj hi2).symm
      subst hi
      have hmm : m2 = m := by rw [hlook] at hl2; exact (Option.some.inj hl2).symm
      subst hmm
      rw [h] at hrej
      exact absurd hacc hrej
  refine ⟨?_, ?_, ?_⟩
  · intro hno
    rcases Call_cases implements c fc with ⟨_, h⟩ | ⟨_, p, _, hp, h⟩ | ⟨_, _, _, _, h⟩ |
      ⟨_, m, _, hi, _, hl, _, _, _⟩ | ⟨_, m, _, _, hi, _, hl, _, _, _, _⟩ |
      ⟨_, m, _, _, hi, _, hl, _, _, _, _⟩
    · rw [h]; exact ⟨rfl, rfl, rfl, rfl, _, rfl, Or.inl rfl⟩
    · rw [h]; exact ⟨rfl, rfl, rfl, rfl, p, rfl, Or.inr (hbind p hp)⟩
    · rw [h]; exact ⟨rfl, rfl, rfl, rfl, _, rfl, Or.inl rfl⟩
    all_goals exact absurd (by simp [MethodByName, hi, hl]) (hno m)
  · intro m hm hlen
    exact hentered m hm (fun hacc => hlen hacc.length_eq)
  · intro m init v hm hv hargs hnot
    refine hentered m hm (fun hacc => ?_)
    cases hvar : m.typ.variadic with
    | none => simp [FuncType.IsVariadic, hvar] at hv
    | some e =>
      rw [hargs] at hacc
      have hins : m.typ.ins = m.typ.fixed ++ [GoType.slice e] := by simp [FuncType.ins, hvar]
      rw [hins] at hacc
      obtain ⟨xs, hxs⟩ := assignableValue_slice (forall₂_append_singleton hacc)
      exact hnot e (by rw [hxs]; rfl)

/-- Runs of C7: the descriptor names a method the handler lacks; the descriptor
declares one parameter for a method of two; the final value bound for a variadic
method is a string. -/
theorem Call_dispatch_errors_are_fatal_witness :
    endsFatally greetMissing (Call scenarioImplements greetMissing ()) ∧
      endsFatally greetShort (Call scenarioImplements greetShort ()) ∧
      endsFatally logAllString (Call scenarioImplements logAllString ()) ∧
      (Call scenarioImplements greetMissing ()).panic =
        some (Panic.valueError "reflect.Value.Type") ∧
      (Call scenarioImplements greetShort ()).panic = some Panic.tooFewArguments ∧
      (Call scenarioImplements logAllString ()).panic = some (Panic.notAssignable 0) :=
  ⟨(Call_dispatch_errors_are_fatal scenarioImplements greetMissing ()).1
      (fun m hm => by
        have h2 : MethodByName greetMissing.AppController greetMissing.MethodType.Name =
            Except.ok none := rfl
        rw [h2] at hm
        cases hm),
    (Call_dispatch_errors_are_fatal scenarioImplements greetShort ()).2.1
      ⟨⟨[GoType.string, GoType.int], none⟩,
        fun _ => Except.ok [Value.iface "revel.Result" (some renderText)]⟩ rfl (by decide),
    (Call_dispatch_errors_are_fatal scenarioImplements logAllString ()).2.2
      ⟨⟨[], some GoType.string⟩,
        fun _ => Except.ok [Value.iface "revel.Result" (some renderText)]⟩
      [] (Value.string "Ada") rfl rfl rfl (fun e h => by cases h),
    rfl, rfl, rfl⟩

/-- C8: an execution of `Call` that returns normally has made exactly one reflective
call of the resolved method, `CallSlice` or `Call` according to whether the method is
variadic, and entered the method body exactly once; and every execution writes
`c.Result` at most once, with a value that satisfies `Result`. -/
theorem Call_calls_once_writes_once {F : Type} (implements : GoType → GoType → Bool)
    (c : Controller) (fc : F) :
    ((Call implements c fc).panic = none →
        ∃ m actual, MethodByName c.AppController c.MethodType.Name = Except.ok (some m) ∧
          (Call implements c fc).invocations =
            [⟨m.typ.IsVariadic, (Call implements c fc).methodArgs⟩] ∧
          (Call implements c fc).runs = [actual] ∧
          entersWith m (Call implements c fc).methodArgs actual) ∧
      (Call implements c fc).invocations.length ≤ 1 ∧
      (Call implements c fc).runs.length ≤ 1 ∧
      (Call implements c fc).writes.length ≤ 1 ∧
      (∀ w ∈ (Call implements c fc).writes,
        satisfiesResult implements w = true ∧ (Call implements c fc).c.Result = some w) := by
  rcases Call_cases implements c fc with ⟨_, h⟩ | ⟨_, _, _, _, h⟩ | ⟨_, _, _, _, h⟩ |
    ⟨_, _, _, _, _, _, _, _, h⟩ | ⟨_, _, _, _, _, _, _, _, _, _, h⟩ |
    ⟨inst, m, actual, results, hi, _, hl, _, hent, _, h⟩ <;> rw [h]
  · exact ⟨fun hp => (by cases hp), by simp, by simp, by simp, fun w hw => (by cases hw)⟩
  · exact ⟨fun hp => (by cases hp), by simp, by simp, by simp, fun w hw => (by cases hw)⟩
  · exact ⟨fun hp => (by cases hp), by simp, by simp, by simp, fun w hw => (by cases hw)⟩
  · exact ⟨fun hp => (by cases hp), by simp, by simp, by simp, fun w hw => (by cases hw)⟩
  · exact ⟨fun hp => (by cases hp), by simp, by simp, by simp, fun w hw => (by cases hw)⟩
  · refine ⟨fun _ => ⟨m, actual, by simp [MethodByName, hi, hl], rfl, rfl, hent⟩,
      by simp, by simp, ?_, ?_⟩
    · rcases captureResult_frame implements c results with ⟨_, h2⟩ | ⟨d, _, h2, _, _⟩ <;>
        simp [h2]
    · intro w hw
      rcases captureResult_frame implements c results with ⟨_, h2⟩ | ⟨d, h1, h2, _, hs⟩
      · simp only [h2] at hw; cases hw
      · simp only [h2] at hw
        have hwd : w = d := by simpa using hw
        subst hwd
        exact ⟨hs, by simp only [h1]⟩

/-- A run of C8: `Show() revel.Result` returns normally after one call and one write. -/
theorem Call_calls_once_writes_once_witness :
    (Call scenarioImplements showInterface ()).panic = none ∧
      ∃ m actual,
        MethodByName showInterface.AppController showInterface.MethodType.Name =
          Except.ok (some m) ∧
        (Call scenarioImplements showInterface ()).invocations =
          [⟨m.typ.IsVariadic, (Call scenarioImplements showInterface ()).methodArgs⟩] ∧
        (Call scenarioImplements showInterface ()).runs = [actual] ∧
        entersWith m (Call scenarioImplements showInterface ()).methodArgs actual :=
  ⟨rfl, (Call_calls_once_writes_once scenarioImplements showInterface ()).1 rfl⟩

/-- C10: what `Call` does with the results is decided by the kind of the first one.
With no results the access to index 0 panics.  Otherwise `Call` reaches the assignment
to `c.Result` exactly when the first result has kind `Interface` and is not nil; the
assertion to `Result` then succeeds, and `c.Result` is set to the dynamic value, exactly
when that value satisfies `Result`, and panics otherwise; in every other case `Call`
returns with `c.Result` as it was.  Nothing but the result at index 0 matters. -/
theorem Call_capture_decided_by_kind {F : Type} (implements : GoType → GoType → Bool)
    (c : Controller) (fc : F) (results : List Value)
    (hret : (Call implements c fc).returned = [results]) :
    (results = [] →
        (Call implements c fc).panic = some Panic.indexOutOfRange ∧
          (Call implements c fc).writes = [] ∧ (Call implements c fc).c.Result = c.Result) ∧
      (∀ v rest, results = v :: rest →
        ((Call implements c fc).c, (Call implements c fc).writes,
            (Call implements c fc).panic) = captureResult implements c [v] ∧
          ((v.Kind = Kind.Interface ∧ v.IsNil = Except.ok false) ↔
            ((Call implements c fc).writes ≠ [] ∨
              (Call implements c fc).panic = some Panic.typeAssertion)) ∧
          (∀ name d, v = Value.iface name (some d) →
            (satisfiesResult implements d = true →
              (Call implements c fc).c.Result = some d ∧
                (Call implements c fc).writes = [d] ∧
                (Call implements c fc).panic = none) ∧
            (satisfiesResult implements d = false →
              (Call implements c fc).panic = some Panic.typeAssertion ∧
                (Call implements c fc).writes = [] ∧
                (Call implements c fc).c.Result = c.Result)) ∧
          (¬ (v.Kind = Kind.Interface ∧ v.IsNil = Except.ok false) →
            (Call implements c fc).panic = none ∧ (Call implements c fc).writes = [] ∧
              (Call implements c fc).c.Result = c.Result)) := by
  obtain ⟨h1, h2, h3, _⟩ := Call_of_returned implements c fc _ hret
  refine ⟨?_, ?_⟩
  · rintro rfl
    rw [h1, h2, h3]
    exact ⟨rfl, rfl, rfl⟩
  · rintro v rest rfl
    rw [h1, h2, h3]
    refine ⟨rfl, ?_, ?_, ?_⟩
    · cases v with
      | iface name dyn =>
        cases dyn with
        | none => simp [captureResult_nil_interface, Value.IsNil]
        | some d =>
          cases hs : satisfiesResult implements d with
          | true =>
            simp [captureResult_satisfying implements c name d rest hs, Value.IsNil,
              Value.Kind]
          | false =>
            simp [captureResult_unsatisfying implements c name d rest hs, Value.IsNil,
              Value.Kind]
      | _ => simp [captureResult_concrete implements c _ rest, Value.Kind]
    · rintro name d rfl
      refine ⟨fun hs => ?_, fun hs => ?_⟩
      · rw [captureResult_satisfying implements c name d rest hs]
        exact ⟨rfl, rfl, rfl⟩
      · rw [captureResult_unsatisfying implements c name d rest hs]
        exact ⟨rfl, rfl, rfl⟩
    · intro hnot
      cases v with
      | iface name dyn =>
        cases dyn with
        | none => rw [captureResult_nil_interface]; exact ⟨rfl, rfl, rfl⟩
        | some d => exact absurd ⟨rfl, rfl⟩ hnot
      | _ =>
        rw [captureResult_concrete implements c _ rest (by simp [Value.Kind])]
        exact ⟨rfl, rfl, rfl⟩

/-- A run of C10: a method without results makes the access to index 0 panic. -/
theorem Call_capture_decided_by_kind_witness :
    (Call scenarioImplements noResults ()).runs = [[]] ∧
      ((Call scenarioImplements noResults ()).panic = some Panic.indexOutOfRange ∧
        (Call scenarioImplements noResults ()).writes = [] ∧
        (Call scenarioImplements noResults ()).c.Result = noResults.Result) :=
  ⟨rfl, (Call_capture_decided_by_kind scenarioImplements noResults () [] rfl).1 rfl⟩

end Revel
